import Mathlib

/-!
Gwencat-LAN: progress-tracked copier, role dispatcher, receiver and formatting.

A shallow embedding of `gwencat-lan.go`.

* Machine integers are mathematical integers reduced with `wrap64` wherever the
  Go code performs int64 arithmetic that can leave the int64 range.
* A reader is the script of the results its successive `Read` calls return; a
  writer is a function from the index of the `Write` call and the bytes offered
  to the result of that call; the clock is the sequence of its readings.
* Effects (writes offered, lines printed, file-system changes) are recorded in
  explicit state.
* The byte counter `written` is an int64: statements that equate it with a
  mathematical total say so under the condition that the total is below `2^63`.
-/

namespace Gwencat

/-! Machine integers and time -/

/-- Two's-complement reduction of an integer to the int64 range. -/
def wrap64 (x : Int) : Int := (x + 2 ^ 63) % 2 ^ 64 - 2 ^ 63

/-- Range of the Go type `int64`. -/
def InInt64 (x : Int) : Prop := -(2 : Int) ^ 63 ≤ x ∧ x < 2 ^ 63

instance (x : Int) : Decidable (InInt64 x) := by
  unfold InInt64; exact inferInstance

/-- `time.Millisecond`, in nanoseconds. -/
def millisecond : Int := 1000000

/-- `time.Second`, in nanoseconds. -/
def second : Int := 1000000000

/-- `Time.Sub` on monotonic readings in nanoseconds: the difference, saturated
to the range of `time.Duration` (an int64). `time.Since t` is `Sub now t`. -/
def durationSub (now t : Int) : Int :=
  let d := now - t
  if d > 2 ^ 63 - 1 then 2 ^ 63 - 1
  else if d < -(2 : Int) ^ 63 then -(2 : Int) ^ 63
  else d

/-! formatBytes -/

/-- The constant `unit = 1024` of `formatBytes`. -/
def unit : Int := 1024

/-- The loop `for n := bytes / unit; n >= unit; n /= unit { div *= unit; exp++ }`.
Returns the final `(div, exp)`. Go's integer division truncates toward zero;
`div *= unit` is int64 multiplication. -/
def formatBytesLoop (n div : Int) (exp : Nat) : Int × Nat :=
  if n ≥ unit then formatBytesLoop (n.tdiv unit) (wrap64 (div * unit)) (exp + 1)
  else (div, exp)
termination_by n.toNat
decreasing_by
  have h : (1024 : Int) ≤ n := by unfold unit at *; omega
  have h0 : (0 : Int) ≤ n := by omega
  rw [show unit = (1024 : Int) from rfl, Int.tdiv_eq_ediv h0 (by norm_num)]
  omega

/-- The value returned by `formatBytes`: either the `"%d B"` string, or the
data of the `"%.1f %cB"` format: the quotient `float64(bytes)/float64(div)` is
kept as its two operands, `exp` is the unit index and `unitChar` the result of
indexing `"KMGTPE"[exp]` (`none` when the index is out of range). -/
inductive Formatted
  | plain (s : String)
  | scaled (bytes div : Int) (exp : Nat) (unitChar : Option Char)
  deriving DecidableEq, Repr

/-- Embedding of `formatBytes`. -/
def formatBytes (bytes : Int) : Formatted :=
  if bytes < unit then .plain (toString bytes ++ " B")
  else
    let r := formatBytesLoop (bytes.tdiv unit) unit 0
    .scaled bytes r.1 r.2 ("KMGTPE".toList[r.2]?)

/-! calculateSpeed -/

/-- The float64 value nearest to the rational `q` (round to nearest, ties to
even, 53 bits of precision), for `q` zero or in the normal range of float64.
Every value that `calculateSpeed` computes on int64 arguments is zero or has
magnitude between `2^-34` and `2^94`, so neither overflow, underflow nor NaN
arises; the sign of a zero is not kept (`-0 == 0`, and `int64(-0) = 0`). -/
def roundF64 (q : ℚ) : ℚ :=
  if q = 0 then 0
  else
    let e : Int := Int.log 2 |q|
    let ulp : ℚ := (2 : ℚ) ^ (e - 52)
    let s : ℚ := |q| / ulp
    let f : Int := ⌊s⌋
    let r : ℚ := s - f
    let m : Int :=
      if r < 1 / 2 then f
      else if r > 1 / 2 then f + 1
      else if f % 2 = 0 then f else f + 1
    (if q < 0 then -1 else 1) * (m : ℚ) * ulp

/-- `Duration.Seconds`: `sec := d / Second; nsec := d % Second;
return float64(sec) + float64(nsec)/1e9`, in float64 arithmetic. -/
def seconds (d : Int) : ℚ :=
  roundF64 (roundF64 ((d.tdiv second : Int) : ℚ) +
    roundF64 (roundF64 ((d.tmod second : Int) : ℚ) / 1000000000))

/-- The conversion `int64(x)` of a float64: truncation toward zero; for a value
outside the int64 range the result is implementation-dependent and given by
`convOut` (on amd64 it is the minimal int64). -/
def toInt64 (convOut : ℚ → Int) (q : ℚ) : Int :=
  let t := q.num.tdiv q.den
  if -(2 : Int) ^ 63 ≤ t ∧ t < 2 ^ 63 then t else convOut q

/-- What a call of `calculateSpeed` does: the value it returns, and the operands
`(dividend, divisor)` of the floating-point division if it performs one. -/
structure Speed where
  result : Int
  division : Option (ℚ × ℚ)
  deriving DecidableEq, Repr

/-- Embedding of `calculateSpeed`. -/
def calculateSpeed (convOut : ℚ → Int) (bytes : Int) (duration : Int) : Speed :=
  if seconds duration = 0 then ⟨0, none⟩
  else
    ⟨toInt64 convOut (roundF64 (roundF64 (bytes : ℚ) / seconds duration)),
      some (roundF64 (bytes : ℚ), seconds duration)⟩

/-! Readers, writers and the copier -/

/-- A byte. -/
abbrev Byte := Fin 256

/-- Go `error` values that the copier distinguishes; `nil` is `none`. -/
inductive GoError
  | EOF
  | ErrShortWrite
  | ErrInvalidWrite
  | other (id : Nat)
  deriving DecidableEq, Repr

/-- Result of one `src.Read(buf)`: the `nr` bytes delivered (`nr = data.length`)
and the error. -/
structure ReadRes where
  data : List Byte
  er : Option GoError
  deriving DecidableEq, Repr

/-- A destination: the result `(nw, ew)` of the `k`-th `Write` call (counting
from 0) when offered `data`. -/
abbrev Writer := Nat → List Byte → Int × Option GoError

/-- One call of `dst.Write`, with what it was offered and what it returned. -/
structure WriteCall where
  data : List Byte
  nw : Int
  ew : Option GoError
  deriving DecidableEq, Repr

/-- A line printed on standard output by the copier. -/
inductive Output
  | percentLine (operation : String) (percent : ℚ) (written total : Formatted)
  | countLine (operation : String) (written : Formatted)
  | newline
  deriving DecidableEq

/-- Size of the copy buffer, `32*1024`. -/
def bufSize : Nat := 32 * 1024

/-- Local variables of `copyWithProgress` together with the record of its
effects: number of `Read` calls made, the `Write` calls in order, the lines
printed, and the number of clock readings taken. -/
structure CopyState where
  written : Int
  lastUpdate : Int
  ticks : Nat
  reads : Nat
  writes : List WriteCall
  out : List Output
  deriving DecidableEq

/-- How a copy loop stands after the scripted reads: it returned
`(written, err)`, it panicked slicing `buf[0:nr]` with `nr` beyond the buffer,
or it is still running and about to call `Read` again. -/
inductive LoopResult
  | ret (written : Int) (err : Option GoError) (st : CopyState)
  | panic (st : CopyState)
  | pending (st : CopyState)
  deriving DecidableEq

/-- Outcome of one loop iteration. -/
inductive Step
  | done (r : LoopResult)
  | next (st : CopyState)

/-- The progress line printed by `copyWithProgress`. -/
def progressLine (total : Int) (operation : String) (written : Int) : Output :=
  if total > 0 then
    .percentLine operation ((written : ℚ) / (total : ℚ) * 100)
      (formatBytes written) (formatBytes total)
  else
    .countLine operation (formatBytes written)

/-- The progress block of the loop body (source lines 289-298). -/
def progressUpdate (clock : Nat → Int) (total : Int) (operation : String)
    (st : CopyState) : CopyState :=
  let now := clock st.ticks
  let st := { st with ticks := st.ticks + 1 }
  if durationSub now st.lastUpdate > 100 * millisecond then
    { st with
      out := st.out ++ [progressLine total operation st.written]
      lastUpdate := clock st.ticks
      ticks := st.ticks + 1 }
  else st

/-- The block `if nr > 0 { ... }` of the loop body (source lines 277-299). -/
def writeChunk (dst : Writer) (clock : Nat → Int) (total : Int) (operation : String)
    (data : List Byte) (st : CopyState) : Step :=
  if data.length > 0 then
    if data.length > bufSize then .done (.panic st)
    else
      let w := dst st.writes.length data
      let st := { st with
        written := if w.1 > 0 then wrap64 (st.written + w.1) else st.written
        writes := st.writes ++ [⟨data, w.1, w.2⟩] }
      match w.2 with
      | some e => .done (.ret st.written (some e) st)
      | none =>
        if (data.length : Int) ≠ w.1 then .done (.ret st.written (some .ErrShortWrite) st)
        else .next (progressUpdate clock total operation st)
  else .next st

/-- One iteration of the `for` loop of `copyWithProgress` on the read result `r`. -/
def copyIter (dst : Writer) (clock : Nat → Int) (total : Int) (operation : String)
    (r : ReadRes) (st : CopyState) : Step :=
  match writeChunk dst clock total operation r.data { st with reads := st.reads + 1 } with
  | .done res => .done res
  | .next st =>
    match r.er with
    | some e =>
      if e ≠ .EOF then .done (.ret st.written (some e) st)
      else .done (.ret st.written none { st with out := st.out ++ [.newline] })
    | none => .next st

/-- The `for` loop of `copyWithProgress`, run on the successive read results. -/
def copyLoop (dst : Writer) (clock : Nat → Int) (total : Int) (operation : String) :
    List ReadRes → CopyState → LoopResult
  | [], st => .pending st
  | r :: rest, st =>
    match copyIter dst clock total operation r st with
    | .done res => res
    | .next st => copyLoop dst clock total operation rest st

/-- Embedding of `copyWithProgress(dst, src, total, operation)`; `clock k` is
the `k`-th reading of the clock, the first being `lastUpdate := time.Now()`. -/
def copyWithProgress (dst : Writer) (src : List ReadRes) (total : Int)
    (operation : String) (clock : Nat → Int) : LoopResult :=
  copyLoop dst clock total operation src
    { written := 0, lastUpdate := clock 0, ticks := 1, reads := 0, writes := [], out := [] }

/-- Embedding of `copyWithProgressUnknownSize`. -/
def copyWithProgressUnknownSize (dst : Writer) (src : List ReadRes)
    (operation : String) (clock : Nat → Int) : LoopResult :=
  copyWithProgress dst src 0 operation clock

/-! Vocabulary for runs of the copier -/

/-- Total number of bytes the destination reported as accepted over the given
write calls; a non-positive reported count adds nothing. -/
def accepted (ws : List WriteCall) : Int := (ws.map (fun w => max w.nw 0)).sum

/-- The bytes offered to the destination, concatenated in write order. -/
def offered (ws : List WriteCall) : List Byte := (ws.map (fun w => w.data)).flatten

/-- A write that succeeded in full: no error and every offered byte accepted. -/
def FullWrite (w : WriteCall) : Prop := w.ew = none ∧ w.nw = (w.data.length : Int)

instance (w : WriteCall) : Decidable (FullWrite w) := by
  unfold FullWrite; exact inferInstance

/-- All the given writes succeeded in full. -/
def AllFull (ws : List WriteCall) : Prop := ∀ w ∈ ws, FullWrite w

/-- A destination that accepts every write in full and without error. -/
def AcceptsAll (dst : Writer) : Prop := ∀ k d, dst k d = ((d.length : Int), none)

/-- The write calls are the answers of `dst` to the offered data, in order. -/
def WritesFrom (dst : Writer) (ws : List WriteCall) : Prop :=
  ∀ i (h : i < ws.length), (ws.get ⟨i, h⟩).nw = (dst i (ws.get ⟨i, h⟩).data).1 ∧
    (ws.get ⟨i, h⟩).ew = (dst i (ws.get ⟨i, h⟩).data).2

/-- The first error returned by the source, if any. -/
def firstErr : List ReadRes → Option GoError
  | [] => none
  | r :: rest =>
    match r.er with
    | some e => some e
    | none => firstErr rest

/-- The reads up to and including the first one that returns an error. -/
def upToFirstErr : List ReadRes → List ReadRes
  | [] => []
  | r :: rest =>
    match r.er with
    | some _ => [r]
    | none => r :: upToFirstErr rest

/-- The bytes delivered by a list of reads, in order. -/
def delivered (reads : List ReadRes) : List Byte := (reads.map (fun r => r.data)).flatten

/-- The reads deliver `src`: each returns at most `bufSize` bytes, all but the
last return no error, the last one returns `io.EOF` (with or without data), and
the data concatenated is `src`. -/
def Delivers (reads : List ReadRes) (src : List Byte) : Prop :=
  ∃ body last, reads = body ++ [last] ∧ (∀ r ∈ body, r.er = none) ∧
    last.er = some .EOF ∧ (∀ r ∈ reads, r.data.length ≤ bufSize) ∧ delivered reads = src

/-- The non-empty buffers among the given reads, in order: what the copy loop
passes to `dst.Write` as it consumes them. -/
def chunks (reads : List ReadRes) : List (List Byte) :=
  (reads.map (fun r => r.data)).filter (fun d => !d.isEmpty)

/-- The error returned when the loop ends at the read error `e`: `nil` for `io.EOF`. -/
def endErr (e : GoError) : Option GoError := if e = .EOF then none else some e

/-- State invariant of the copy loops: the counter is the accepted total reduced
to int64, and the recorded writes are the destination's answers. -/
structure Sound (dst : Writer) (st : CopyState) : Prop where
  count : st.written = wrap64 (accepted st.writes)
  src : WritesFrom dst st.writes

/-! io.Copy

The sender and the receiver call the standard library's `io.Copy` when progress
display is off. It is embedded by the library's generic loop (`io.copyBuffer`
with a 32 KiB buffer), recorded in the same state as `copyWithProgress`; it
reads no clock and prints nothing. -/

/-- One iteration of the generic `io.Copy` loop. -/
def ioCopyIter (dst : Writer) (r : ReadRes) (st : CopyState) : Step :=
  let st := { st with reads := st.reads + 1 }
  if r.data.length > 0 then
    if r.data.length > bufSize then .done (.panic st)
    else
      let w := dst st.writes.length r.data
      let invalid : Bool := decide (w.1 < 0 ∨ (r.data.length : Int) < w.1)
      let nw : Int := if invalid then 0 else w.1
      let ew : Option GoError :=
        if invalid then (match w.2 with | some e => some e | none => some .ErrInvalidWrite)
        else w.2
      let st := { st with
        written := wrap64 (st.written + nw)
        writes := st.writes ++ [⟨r.data, w.1, w.2⟩] }
      match ew with
      | some e => .done (.ret st.written (some e) st)
      | none =>
        if (r.data.length : Int) ≠ nw then .done (.ret st.written (some .ErrShortWrite) st)
        else
          match r.er with
          | some e => .done (.ret st.written (endErr e) st)
          | none => .next st
  else
    match r.er with
    | some e => .done (.ret st.written (endErr e) st)
    | none => .next st

/-- The generic `io.Copy` loop, run on the successive read results. -/
def ioCopyLoop (dst : Writer) : List ReadRes → CopyState → LoopResult
  | [], st => .pending st
  | r :: rest, st =>
    match ioCopyIter dst r st with
    | .done res => res
    | .next st => ioCopyLoop dst rest st

/-- Embedding of `io.Copy(dst, src)`. -/
def ioCopy (dst : Writer) (src : List ReadRes) : LoopResult :=
  ioCopyLoop dst src
    { written := 0, lastUpdate := 0, ticks := 0, reads := 0, writes := [], out := [] }

/-! File system and role dispatcher -/

/-- A file-system entry. -/
inductive Node
  | file (content : List Byte)
  | dir
  deriving DecidableEq, Repr

/-- The file system: the entry at each path, if any. -/
abbrev FileSys := String → Option Node

/-- Embedding of `fileExists`: `os.Stat` succeeds exactly on existing entries. -/
def fileExists (fs : FileSys) (path : String) : Bool := (fs path).isSome

/-- The command-line flags (the package-level `flag` variables). -/
structure Flags where
  mode : String
  remoteIP : String
  port : Int
  timeout : Int
  verify : Bool
  showProgress : Bool
  listenAll : Bool

/-- What `main` does: leave with an exit status after the usage text, die in
`log.Fatalf`, or call one of the two transfer functions. -/
inductive Dispatch
  | exit (code : Nat)
  | fatal (format : String)
  | sendFile (remoteIP : String) (port : Int) (filePath : String)
  | receiveFile (sourceIPFilter : String) (port : Int) (filePath : String)
  deriving DecidableEq, Repr

/-- The exit status of a dispatch that starts no transfer; `log.Fatalf` exits
with status 1. -/
def Dispatch.exitStatus : Dispatch → Option Nat
  | .exit code => some code
  | .fatal _ => some 1
  | .sendFile _ _ _ => none
  | .receiveFile _ _ _ => none

/-- The auto-detection block of `main` (source lines 37-44): the value of
`*mode` after it. -/
def resolveMode (fs : FileSys) (mode : String) (filePath : String) : String :=
  if mode = "" then
    if fileExists fs filePath then "send" else "receive"
  else mode

/-- Embedding of `main`, up to the call of `sendFile` or `receiveFile`. -/
def main (fs : FileSys) (flags : Flags) (args : List String) : Dispatch :=
  match args with
  | [filePath] =>
    let mode := resolveMode fs flags.mode filePath
    if mode = "send" then
      if flags.remoteIP = "" ∨ flags.port = 0 then .exit 1
      else if ¬ fileExists fs filePath then .fatal "File does not exist: %s"
      else .sendFile flags.remoteIP flags.port filePath
    else if mode = "receive" then
      if flags.port = 0 then .exit 1
      else .receiveFile flags.remoteIP flags.port filePath
    else .exit 1
  | _ => .exit 1

/-! Sender and receiver -/

/-- Operating-system level actions of a session, in the order they happen.
`log` carries the format string of the `log.Printf` call. -/
inductive Event
  | log (format : String)
  | dial (remoteIP : String) (port : Int) (timeoutSeconds : Int)
  | listen (host : String) (port : Int)
  | setListenerDeadline (seconds : Int)
  | accept
  | setConnDeadline (seconds : Int)
  | openFile (path : String)
  | statFile
  | checksum (path : String)
  | mkdirAll (dir : String)
  | create (path : String)
  | copy (withProgress : Bool)
  | closeFile
  | closeConn
  | closeListener
  deriving DecidableEq, Repr

/-- How a transfer function ends: it returns, the process dies in `log.Fatalf`
(exit status 1), it panics, or it is still blocked in the copy after the
scripted reads. -/
inductive Ending
  | returned
  | fatal (format : String)
  | panicked
  | blocked
  deriving DecidableEq, Repr

/-- Result of a session: how it ended, the file system it leaves, the actions
it performed, the run of its copy (if the copy was started) and the byte count
it reports on success. -/
structure Session where
  ending : Ending
  fs : FileSys
  events : List Event
  copy : Option LoopResult
  reported : Option Int

/-- The content a file holds after the given writes: of each write, the bytes
the file reported as written. -/
def fileContent (ws : List WriteCall) : List Byte :=
  (ws.map (fun w => w.data.take w.nw.toNat)).flatten

/-- The state in which a copy loop stands. -/
def LoopResult.state : LoopResult → CopyState
  | .ret _ _ st => st
  | .panic st => st
  | .pending st => st

/-- The bytes a session put on the connection: of each write of its copy, the
bytes the connection reported as written; nothing if no copy was started. -/
def Session.wire (s : Session) : List Byte :=
  match s.copy with
  | some run => fileContent run.state.writes
  | none => []

/-- What the sender meets outside the program: the flags it reads, the results
of the system calls it makes, how the file delivers its content to successive
reads, how the connection answers writes, and the clock (first reading:
`start := time.Now()`). `checksum` is the result of `calculateChecksum`. -/
structure SendEnv where
  timeout : Int
  verify : Bool
  showProgress : Bool
  dialErr : Option GoError
  openErr : Option GoError
  stat : Except GoError Int
  checksum : Except GoError String
  fileReads : List ReadRes
  conn : Writer
  clock : Nat → Int

/-- The copy step of `sendFile` (source lines 144-148). -/
def sendCopy (env : SendEnv) (fileSize : Int) : LoopResult :=
  if env.showProgress then
    copyWithProgress env.conn env.fileReads fileSize "Sending" (fun k => env.clock (k + 1))
  else
    ioCopy env.conn env.fileReads

/-- Embedding of `sendFile`. -/
def sendFile (env : SendEnv) (fs : FileSys) (remoteIP : String) (port : Int)
    (filePath : String) : Session :=
  let ev := [Event.log "Connecting to %s (timeout: %ds)...", .dial remoteIP port env.timeout]
  match env.dialErr with
  | some _ => ⟨.fatal "Failed to connect to %s: %v", fs, ev, none, none⟩
  | none =>
    let ev := ev ++ [.setConnDeadline (wrap64 (env.timeout * 10)), .openFile filePath]
    match env.openErr with
    | some _ => ⟨.fatal "Failed to open file %s: %v", fs, ev, none, none⟩
    | none =>
      let ev := ev ++ [.statFile]
      match env.stat with
      | .error _ => ⟨.fatal "Failed to get file info: %v", fs, ev, none, none⟩
      | .ok fileSize =>
        let ev := ev ++ [.log "Sending file: %s (%s)"]
        let afterChecksum : Except Ending (List Event) :=
          if env.verify then
            match env.checksum with
            | .error _ => .error (.fatal "Failed to calculate checksum: %v")
            | .ok _ => .ok (ev ++ [.log "Calculating checksum...", .checksum filePath,
                .log "File checksum: %s"])
          else .ok ev
        match afterChecksum with
        | .error e => ⟨e, fs, ev ++ [.log "Calculating checksum...", .checksum filePath], none, none⟩
        | .ok ev =>
          let run := sendCopy env fileSize
          let ev := ev ++ [.copy env.showProgress]
          match run with
          | .panic _ => ⟨.panicked, fs, ev, some run, none⟩
          | .pending _ => ⟨.blocked, fs, ev, some run, none⟩
          | .ret _ (some _) _ => ⟨.fatal "Failed to send file: %v", fs, ev, some run, none⟩
          | .ret bytesSent none _ =>
            let ev := ev ++ [.log "✓ File sent successfully: %s (%s in %v, %s/s)"]
            let ev := if env.verify then ev ++ [.log "✓ Checksum: %s"] else ev
            ⟨.returned, fs, ev ++ [.closeFile, .closeConn], some run, some bytesSent⟩

/-- What the receiver meets outside the program: the flags it reads, the
results of the system calls it makes (`accept` is the result of the call of
`listener.Accept`: an error, or the textual source IP of the accepted
connection; `mkdirAllErr` pairs the error with the value of `os.IsExist` on
it), how the connection delivers bytes to successive reads, how the destination
file answers writes, `filepath.Dir`, and the clock (first reading:
`start := time.Now()`). -/
structure RecvEnv where
  timeout : Int
  verify : Bool
  showProgress : Bool
  listenAll : Bool
  listenErr : Option GoError
  accept : Except GoError String
  mkdirAllErr : Option (GoError × Bool)
  createErr : Option GoError
  checksum : Except GoError String
  connReads : List ReadRes
  file : Writer
  dirOf : String → String
  clock : Nat → Int

/-- The test `err != nil && !os.IsExist(err)` on the result of `os.MkdirAll`. -/
def mkdirFailed : Option (GoError × Bool) → Bool
  | some (_, isExist) => !isExist
  | none => false

/-- The path `d` and its ancestors, by repeated `filepath.Dir`. -/
def ancestors (dirOf : String → String) (d : String) : List String :=
  List.iterate dirOf d (d.length + 1)

/-- The file system after a successful `os.MkdirAll(d, 0755)`: `d` and every
ancestor of `d` that was missing is now a directory. -/
def mkdirAll (dirOf : String → String) (fs : FileSys) (d : String) : FileSys :=
  fun p =>
    if p ∈ ancestors dirOf d then
      (match fs p with
       | some n => some n
       | none => some .dir)
    else fs p

/-- The copy step of `receiveFile` (source lines 226-230). -/
def receiveCopy (env : RecvEnv) : LoopResult :=
  if env.showProgress then
    copyWithProgressUnknownSize env.file env.connReads "Receiving" (fun k => env.clock (k + 1))
  else
    ioCopy env.file env.connReads

/-- Embedding of `receiveFile`. -/
def receiveFile (env : RecvEnv) (fs : FileSys) (sourceIPFilter : String) (port : Int)
    (filePath : String) : Session :=
  let ev :=
    if env.listenAll then [Event.log "Listening on all interfaces at port %d"]
    else if sourceIPFilter ≠ "" then
      [Event.log "Listening on port %d, will accept connections only from %s"]
    else [Event.log "Listening on port %d, will accept connections from any IP"]
  let ev := ev ++ [.listen "0.0.0.0" port]
  match env.listenErr with
  | some _ => ⟨.fatal "Failed to listen on port %d: %v", fs, ev, none, none⟩
  | none =>
    let ev := ev ++ [.log "Waiting for connection (timeout: %ds)...",
      .setListenerDeadline env.timeout, .accept]
    match env.accept with
    | .error _ => ⟨.fatal "Failed to accept connection: %v", fs, ev, none, none⟩
    | .ok remoteIP =>
      if sourceIPFilter ≠ "" ∧ remoteIP ≠ sourceIPFilter then
        ⟨.returned, fs,
          ev ++ [.log "✗ Rejected connection from %s (expected %s)", .closeConn, .closeListener],
          none, none⟩
      else
        let ev := ev ++ [.log "✓ Connection established from %s",
          .setConnDeadline (wrap64 (env.timeout * 10)), .mkdirAll (env.dirOf filePath)]
        if mkdirFailed env.mkdirAllErr then ⟨.fatal "Failed to create directory: %v", fs, ev, none, none⟩
        else
          let fs : FileSys :=
            match env.mkdirAllErr with
            | none => mkdirAll env.dirOf fs (env.dirOf filePath)
            | some _ => fs
          let ev := ev ++ [.create filePath]
          match env.createErr with
          | some _ => ⟨.fatal "Failed to create file %s: %v", fs, ev, none, none⟩
          | none =>
            let run := receiveCopy env
            let fs : FileSys := fun p =>
              if p = filePath then some (.file (fileContent run.state.writes)) else fs p
            let ev := ev ++ [.log "Receiving file...", .copy env.showProgress]
            match run with
            | .panic _ => ⟨.panicked, fs, ev, some run, none⟩
            | .pending _ => ⟨.blocked, fs, ev, some run, none⟩
            | .ret _ (some _) _ => ⟨.fatal "Failed to receive file: %v", fs, ev, some run, none⟩
            | .ret bytesReceived none _ =>
              let ev := ev ++ [.log "✓ File received successfully: %s (%s in %v, %s/s)"]
              let ev :=
                if env.verify then
                  ev ++ [.log "Calculating checksum for verification...", .checksum filePath] ++
                    (match env.checksum with
                     | .error _ => [.log "⚠ Warning: Could not calculate checksum: %v"]
                     | .ok _ => [.log "✓ File checksum: %s",
                        .log "Note: Compare with sender\x27s checksum to verify integrity"])
                else ev
              ⟨.returned, fs, ev ++ [.closeFile, .closeConn, .closeListener],
                some run, some bytesReceived⟩

/-! Example environments -/

/-- A destination that accepts every write in full. -/
def acceptAll : Writer := fun _ d => ((d.length : Int), none)

/-- A clock advancing one nanosecond per reading. -/
def tickClock : Nat → Int := fun k => (k : Int)

/-- A sender environment in which every system call succeeds and the file
delivers the bytes `1, 2, 3` in two reads followed by an empty read with
`io.EOF`. -/
def demoSendEnv : SendEnv where
  timeout := 30
  verify := false
  showProgress := true
  dialErr := none
  openErr := none
  stat := .ok 3
  checksum := .ok ""
  fileReads := [⟨[1, 2], none⟩, ⟨[3], none⟩, ⟨[], some .EOF⟩]
  conn := acceptAll
  clock := tickClock

/-- A receiver environment in which every system call succeeds, the peer is
`10.0.0.7`, and the connection delivers the bytes `1, 2, 3` re-chunked. -/
def demoRecvEnv : RecvEnv where
  timeout := 30
  verify := false
  showProgress := false
  listenAll := false
  listenErr := none
  accept := .ok "10.0.0.7"
  mkdirAllErr := none
  createErr := none
  checksum := .ok ""
  connReads := [⟨[1], none⟩, ⟨[2, 3], some .EOF⟩]
  file := acceptAll
  dirOf := fun _ => "."
  clock := tickClock

/-- A file system holding one file, `out.bin`, with two bytes. -/
def demoFs : FileSys := fun p => if p = "out.bin" then some (.file [9, 9]) else none

/-- A clock that stands still for the first two readings and then advances half
a second per reading. -/
def slowClock : Nat → Int := fun k => if k ≤ 1 then 0 else (k : Int) * 500000000

/-! Arithmetic lemmas -/

theorem wrap64_of_inRange (x : Int) (h1 : -(2:Int)^63 ≤ x) (h2 : x < 2^63) : wrap64 x = x := by
  unfold wrap64; omega

theorem pow1024_lt_of_le (e : Nat) (bytes : Int) (h1 : (1024:Int)^(e+1) ≤ bytes) (h2 : bytes < 2^63) :
    e ≤ 5 := by
  by_contra hc
  have h7 : 7 ≤ e + 1 := by omega
  have : (1024:Int)^7 ≤ 1024^(e+1) := pow_le_pow_right₀ (by norm_num) h7
  have h3 : (1024:Int)^7 = 1180591620717411303424 := by norm_num
  have h4 : (2:Int)^63 = 9223372036854775808 := by norm_num
  omega

theorem formatBytesLoop_spec : ∀ (k : Nat) (bytes n : Int) (e : Nat), n.toNat ≤ k →
    bytes < 2^63 → 1 ≤ n → n * 1024^(e+1) ≤ bytes → bytes < (n + 1) * 1024^(e+1) →
    ∃ e', formatBytesLoop n (1024^(e+1)) e = (1024^(e'+1), e') ∧ e' ≤ 5 ∧
      (1024:Int)^(e'+1) ≤ bytes ∧ bytes < 1024 * 1024^(e'+1) := by
  intro k
  induction k with
  | zero => intro bytes n e hk _ hn _; omega
  | succ k ih =>
    intro bytes n e hk hb hn hlo hhi
    have hpos : (0:Int) < 1024^(e+1) := by positivity
    have hle : (1024:Int)^(e+1) ≤ bytes := by nlinarith
    rw [formatBytesLoop]
    by_cases hge : n ≥ unit
    · rw [if_pos hge]
      have hge' : (1024:Int) ≤ n := hge
      have hq1 : 1024 * (n / 1024) ≤ n := by omega
      have hq2 : n < 1024 * (n / 1024) + 1024 := by omega
      have hq3 : 1 ≤ n / 1024 := by omega
      have hps : (1024:Int)^(e+1+1) = 1024^(e+1) * 1024 := pow_succ _ _
      have hle2 : (1024:Int)^(e+1+1) ≤ bytes := by rw [hps]; nlinarith
      have he5 := pow1024_lt_of_le (e+1) bytes hle2 hb
      have hw : wrap64 (1024^(e+1) * unit) = 1024^(e+1+1) := by
        rw [show unit = (1024:Int) from rfl, ← pow_succ]
        apply wrap64_of_inRange
        · have : (0:Int) < 1024^(e+1+1) := by positivity
          omega
        · omega
      rw [hw, show unit = (1024:Int) from rfl, Int.tdiv_eq_ediv (by omega) (by norm_num)]
      apply ih bytes (n / 1024) (e+1) (by omega) hb hq3
      · rw [hps]; nlinarith
      · rw [hps]; nlinarith
    · rw [if_neg hge]
      have hlt : n < 1024 := by unfold unit at hge; omega
      refine ⟨e, rfl, pow1024_lt_of_le e bytes hle hb, hle, ?_⟩
      nlinarith

theorem wrap64_add_wrap64 (a b : Int) : wrap64 (wrap64 a + b) = wrap64 (a + b) := by
  unfold wrap64; omega

theorem wrap64_wrap64 (a : Int) : wrap64 (wrap64 a) = wrap64 a := by
  unfold wrap64; omega

theorem accepted_nonneg (ws : List WriteCall) : 0 ≤ accepted ws := by
  unfold accepted
  apply List.sum_nonneg
  intro x hx
  simp only [List.mem_map] at hx
  obtain ⟨w, _, rfl⟩ := hx
  exact le_max_right _ _

theorem accepted_append (ws : List WriteCall) (w : WriteCall) :
    accepted (ws ++ [w]) = accepted ws + max w.nw 0 := by
  simp [accepted]

theorem offered_append (ws : List WriteCall) (w : WriteCall) :
    offered (ws ++ [w]) = offered ws ++ w.data := by
  simp [offered]

theorem writesFrom_append {dst : Writer} {ws : List WriteCall} (h : WritesFrom dst ws)
    (d : List Byte) : WritesFrom dst (ws ++ [⟨d, (dst ws.length d).1, (dst ws.length d).2⟩]) := by
  intro i hi
  by_cases hlt : i < ws.length
  · have := h i hlt
    simp only [List.get_eq_getElem] at this ⊢
    rw [List.getElem_append_left hlt]
    exact this
  · have hi' : i = ws.length := by
      simp at hi; omega
    subst hi'
    simp [List.get_eq_getElem]

@[simp]
theorem progressUpdate_written (clock : Nat → Int) (total : Int) (op : String)
    (st : CopyState) : (progressUpdate clock total op st).written = st.written := by
  unfold progressUpdate; simp only; split <;> rfl

@[simp]
theorem progressUpdate_writes (clock : Nat → Int) (total : Int) (op : String)
    (st : CopyState) : (progressUpdate clock total op st).writes = st.writes := by
  unfold progressUpdate; simp only; split <;> rfl

@[simp]
theorem progressUpdate_reads (clock : Nat → Int) (total : Int) (op : String)
    (st : CopyState) : (progressUpdate clock total op st).reads = st.reads := by
  unfold progressUpdate; simp only; split <;> rfl

/-- What one run of the `if nr > 0` block can do. -/
theorem writeChunk_cases (dst : Writer) (clock : Nat → Int) (total : Int) (op : String)
    (data : List Byte) (st : CopyState) (hs : Sound dst st) :
    (data = [] ∧ writeChunk dst clock total op data st = .next st) ∨
    (bufSize < data.length ∧ writeChunk dst clock total op data st = .done (.panic st)) ∨
    (0 < data.length ∧ data.length ≤ bufSize ∧
      ∃ st', Sound dst st' ∧ st'.reads = st.reads ∧
        st'.writes = st.writes ++ [⟨data, (dst st.writes.length data).1, (dst st.writes.length data).2⟩] ∧
        ((FullWrite ⟨data, (dst st.writes.length data).1, (dst st.writes.length data).2⟩ ∧
            writeChunk dst clock total op data st = .next (progressUpdate clock total op st')) ∨
         (¬ FullWrite ⟨data, (dst st.writes.length data).1, (dst st.writes.length data).2⟩ ∧
            writeChunk dst clock total op data st =
              .done (.ret st'.written
                (some ((dst st.writes.length data).2.getD .ErrShortWrite)) st')))) := by
  by_cases h0 : data = []
  · left; subst h0; exact ⟨rfl, by simp [writeChunk]⟩
  right
  have hpos : 0 < data.length := List.length_pos.2 h0
  by_cases hbig : bufSize < data.length
  · left; exact ⟨hbig, by simp [writeChunk, hpos, hbig]⟩
  right
  refine ⟨hpos, by omega, ?_⟩
  refine ⟨{ st with
      written := if (dst st.writes.length data).1 > 0
        then wrap64 (st.written + (dst st.writes.length data).1) else st.written
      writes := st.writes ++ [⟨data, (dst st.writes.length data).1, (dst st.writes.length data).2⟩] },
    ⟨?_, writesFrom_append hs.src data⟩, rfl, rfl, ?_⟩
  · simp only [accepted_append]
    rw [hs.count]
    split
    · rename_i h; rw [wrap64_add_wrap64, max_eq_left (le_of_lt h)]
    · rename_i h; rw [max_eq_right (by omega), add_zero]
  · unfold writeChunk
    rw [if_pos hpos, if_neg hbig]
    simp only
    rcases hew : (dst st.writes.length data).2 with _ | e
    · by_cases hnw : (data.length : Int) = (dst st.writes.length data).1
      · left
        refine ⟨⟨rfl, hnw.symm⟩, ?_⟩
        simp [hnw]
      · right
        refine ⟨fun hf => hnw hf.2.symm, ?_⟩
        simp [hnw]
    · right
      refine ⟨fun hf => by simpa using hf.1, ?_⟩
      simp

theorem allFull_append {ws : List WriteCall} {w : WriteCall} (h : AllFull ws) (hw : FullWrite w) :
    AllFull (ws ++ [w]) := by
  intro x hx
  rcases List.mem_append.1 hx with h1 | h1
  · exact h x h1
  · rw [List.mem_singleton.1 h1]; exact hw

/-- What one loop iteration can do, from a sound state. -/
theorem copyIter_cases (dst : Writer) (clock : Nat → Int) (total : Int) (op : String)
    (r : ReadRes) (st : CopyState) (hs : Sound dst st) :
    (bufSize < r.data.length ∧ ∃ st', copyIter dst clock total op r st = .done (.panic st')) ∨
    (r.data.length ≤ bufSize ∧ ∃ st', Sound dst st' ∧ st'.reads = st.reads + 1 ∧
      ((offered st'.writes = offered st.writes ++ r.data ∧
        (∃ ws, st'.writes = st.writes ++ ws ∧ AllFull ws ∧
          ws.map (fun w => w.data) = chunks [r]) ∧
        ((r.er = none ∧ copyIter dst clock total op r st = .next st') ∨
         (∃ e, r.er = some e ∧
            copyIter dst clock total op r st = .done (.ret st'.written (endErr e) st')))) ∨
       (∃ w, st'.writes = st.writes ++ [w] ∧ ¬ FullWrite w ∧ w.data = r.data ∧ r.data ≠ [] ∧
          w.nw = (dst st.writes.length r.data).1 ∧ w.ew = (dst st.writes.length r.data).2 ∧
          copyIter dst clock total op r st =
            .done (.ret st'.written (some (w.ew.getD .ErrShortWrite)) st')))) := by
  have hs1 : Sound dst { st with reads := st.reads + 1 } := ⟨hs.count, hs.src⟩
  rcases writeChunk_cases dst clock total op r.data _ hs1 with
    ⟨h0, hc⟩ | ⟨hbig, hc⟩ | ⟨hpos, hle, st', hs', hr', hw', hc⟩
  · right
    refine ⟨by simp [h0], ?_⟩
    rcases her : r.er with _ | e
    · refine ⟨_, hs1, rfl, Or.inl ⟨by simp [h0], ⟨[], by simp, by intro w hw; simp at hw, by simp [chunks, h0]⟩, Or.inl ⟨rfl, ?_⟩⟩⟩
      simp [copyIter, hc, her]
    · by_cases hE : e = .EOF
      · refine ⟨{ st with reads := st.reads + 1, out := st.out ++ [.newline] },
          ⟨hs.count, hs.src⟩, rfl,
          Or.inl ⟨by simp [h0], ⟨[], by simp, by intro w hw; simp at hw, by simp [chunks, h0]⟩, Or.inr ⟨e, rfl, ?_⟩⟩⟩
        simp [copyIter, hc, her, hE, endErr]
      · refine ⟨_, hs1, rfl, Or.inl ⟨by simp [h0], ⟨[], by simp, by intro w hw; simp at hw, by simp [chunks, h0]⟩, Or.inr ⟨e, rfl, ?_⟩⟩⟩
        simp [copyIter, hc, her, hE, endErr]
  · left
    exact ⟨hbig, { st with reads := st.reads + 1 }, by simp [copyIter, hc]⟩
  · right
    refine ⟨hle, ?_⟩
    rcases hc with ⟨hfull, hc⟩ | ⟨hnf, hc⟩
    · have hs2 : Sound dst (progressUpdate clock total op st') :=
        ⟨by simpa using hs'.count, by simpa using hs'.src⟩
      have hoff : offered (progressUpdate clock total op st').writes = offered st.writes ++ r.data := by
        simp [hw', offered_append]
      have hex : ∃ ws, (progressUpdate clock total op st').writes = st.writes ++ ws ∧ AllFull ws ∧
          ws.map (fun w => w.data) = chunks [r] :=
        ⟨_, by simpa using hw', by intro w hw; rw [List.mem_singleton.1 hw]; exact hfull,
          by simp [chunks, List.length_pos.1 hpos]⟩
      rcases her : r.er with _ | e
      · refine ⟨_, hs2, by simpa using hr', Or.inl ⟨hoff, hex, Or.inl ⟨rfl, ?_⟩⟩⟩
        simp [copyIter, hc, her]
      · by_cases hE : e = .EOF
        · refine ⟨{ progressUpdate clock total op st' with
              out := (progressUpdate clock total op st').out ++ [.newline] },
            ⟨hs2.count, hs2.src⟩, by simpa using hr', Or.inl ⟨hoff, hex, Or.inr ⟨e, rfl, ?_⟩⟩⟩
          simp [copyIter, hc, her, hE, endErr]
        · refine ⟨_, hs2, by simpa using hr', Or.inl ⟨hoff, hex, Or.inr ⟨e, rfl, ?_⟩⟩⟩
          simp [copyIter, hc, her, hE, endErr]
    · refine ⟨st', hs', hr', Or.inr ⟨_, hw', hnf, rfl, List.length_pos.1 hpos, rfl, rfl, ?_⟩⟩
      simp [copyIter, hc]

theorem copyIter_ne_pending (dst : Writer) (clock : Nat → Int) (total : Int) (op : String)
    (r : ReadRes) (st st' : CopyState) :
    copyIter dst clock total op r st ≠ .done (.pending st') := by
  unfold copyIter writeChunk
  intro h
  split at h
  · rename_i res heq
    split at heq
    · split at heq
      · simp at heq h; rw [← heq] at h; simp at h
      · simp only at heq
        split at heq
        · simp at heq h; rw [← heq] at h; simp at h
        · split at heq
          · simp at heq h; rw [← heq] at h; simp at h
          · simp at heq
    · simp at heq
  · split at h
    · split at h <;> simp at h
    · simp at h

theorem copyLoop_append_pending (dst : Writer) (clock : Nat → Int) (total : Int) (op : String)
    (post : List ReadRes) : ∀ (pre : List ReadRes) (st st' : CopyState),
    copyLoop dst clock total op pre st = .pending st' →
    copyLoop dst clock total op (pre ++ post) st = copyLoop dst clock total op post st' := by
  intro pre
  induction pre with
  | nil => intro st st' h; simp [copyLoop] at h; simp [h]
  | cons r rest ih =>
    intro st st' h
    simp only [copyLoop, List.cons_append] at h ⊢
    rcases hit : copyIter dst clock total op r st with res | st1
    · rw [hit] at h
      simp only at h
      subst h
      exact absurd hit (copyIter_ne_pending _ _ _ _ _ _ _)
    · rw [hit] at h
      simp only at h ⊢
      exact ih st1 st' h

theorem copyLoop_pending_inv (dst : Writer) (clock : Nat → Int) (total : Int) (op : String) :
    ∀ (pre : List ReadRes) (st st' : CopyState), Sound dst st → AllFull st.writes →
    copyLoop dst clock total op pre st = .pending st' →
    Sound dst st' ∧ AllFull st'.writes ∧ st'.reads = st.reads + pre.length ∧
      offered st'.writes = offered st.writes ++ delivered pre ∧
      (∀ r ∈ pre, r.er = none ∧ r.data.length ≤ bufSize) := by
  intro pre
  induction pre with
  | nil =>
    intro st st' hs hf h
    simp only [copyLoop, LoopResult.pending.injEq] at h
    subst h
    exact ⟨hs, hf, rfl, by simp [delivered], by simp⟩
  | cons r rest ih =>
    intro st st' hs hf h
    simp only [copyLoop] at h
    rcases copyIter_cases dst clock total op r st hs with
      ⟨_, st1, hc⟩ | ⟨hle, st1, hs1, hr1, ⟨hoff, ⟨ws, hws, hwf, _⟩, ⟨her, hc⟩ | ⟨e, her, hc⟩⟩ | ⟨w, _, _, _, _, _, _, hc⟩⟩
    · rw [hc] at h; simp at h
    · rw [hc] at h
      simp only at h
      have hf1 : AllFull st1.writes := by
        rw [hws]; intro w hw
        rcases List.mem_append.1 hw with h1 | h1
        · exact hf w h1
        · exact hwf w h1
      obtain ⟨a, b, c, d, e⟩ := ih st1 st' hs1 hf1 h
      refine ⟨a, b, by rw [c, hr1]; simp; omega, ?_, ?_⟩
      · rw [d, hoff]; simp [delivered]
      · intro x hx
        rcases List.mem_cons.1 hx with h1 | h1
        · subst h1; exact ⟨her, hle⟩
        · exact e x h1
    · rw [hc] at h; simp at h
    · rw [hc] at h; simp at h

theorem chunks_cons (r : ReadRes) (rest : List ReadRes) :
    chunks (r :: rest) = chunks [r] ++ chunks rest := by
  simp only [chunks, List.map_cons, List.map_nil]
  rw [← List.filter_append]
  simp

/-- Characterisation of a run whose read script contains an error: the loop
returns; the buffers written are the non-empty buffers read, in order; either
every write succeeded in full and the loop ended at the first read error, or
the last write failed and its failure is returned. -/
theorem copyLoop_ret (dst : Writer) (clock : Nat → Int) (total : Int) (op : String) :
    ∀ (reads : List ReadRes) (st : CopyState) (e : GoError), Sound dst st →
    (∀ r ∈ reads, r.data.length ≤ bufSize) → firstErr reads = some e →
    ∃ st' err ws, Sound dst st' ∧ copyLoop dst clock total op reads st = .ret st'.written err st' ∧
      st'.writes = st.writes ++ ws ∧
      ((AllFull ws ∧ err = endErr e ∧ offered ws = delivered (upToFirstErr reads) ∧
          ws.map (fun w => w.data) = chunks (upToFirstErr reads) ∧
          st'.reads = st.reads + (upToFirstErr reads).length) ∨
       (∃ ws0 w tail, ws = ws0 ++ [w] ∧ AllFull ws0 ∧ ¬ FullWrite w ∧
          err = some (w.ew.getD .ErrShortWrite) ∧
          chunks (upToFirstErr reads) = ws.map (fun w => w.data) ++ tail)) := by
  intro reads
  induction reads with
  | nil => intro st e _ _ h; simp [firstErr] at h
  | cons r rest ih =>
    intro st e hs hb hfe
    have hbr : r.data.length ≤ bufSize := hb r (List.mem_cons_self _ _)
    simp only [copyLoop]
    rcases copyIter_cases dst clock total op r st hs with
      ⟨hbig, _⟩ | ⟨hle, st1, hs1, hr1, ⟨hoff, ⟨ws, hws, hwf, hch⟩, ⟨her, hc⟩ | ⟨e1, her, hc⟩⟩ |
        ⟨w, hw, hnf, hwd, hne, _, _, hc⟩⟩
    · omega
    · rw [hc]
      simp only
      have hfe' : firstErr rest = some e := by simpa [firstErr, her] using hfe
      have hup : upToFirstErr (r :: rest) = r :: upToFirstErr rest := by
        simp [upToFirstErr, her]
      obtain ⟨st', err, ws', hs', hrun, hws', hcase⟩ :=
        ih st1 e hs1 (fun x hx => hb x (List.mem_cons_of_mem _ hx)) hfe'
      refine ⟨st', err, ws ++ ws', hs', hrun, by rw [hws', hws, List.append_assoc], ?_⟩
      have hoffws : offered ws = r.data := by
        have := hoff
        rw [hws] at this
        simpa [offered] using this
      rcases hcase with ⟨hall, herr, hof, hcw, hrd⟩ | ⟨ws0, w, tail, hw, hall, hnf, herr, hpre⟩
      · left
        refine ⟨?_, herr, ?_, ?_, ?_⟩
        · intro x hx
          rcases List.mem_append.1 hx with h1 | h1
          · exact hwf x h1
          · exact hall x h1
        · have : offered (ws ++ ws') = offered ws ++ offered ws' := by simp [offered]
          rw [this, hoffws, hof]
          simp [upToFirstErr, her, delivered]
        · rw [hup, chunks_cons, List.map_append, hch, hcw]
        · rw [hrd, hr1]; simp [upToFirstErr, her]; omega
      · right
        refine ⟨ws ++ ws0, w, tail, by rw [hw, List.append_assoc], ?_, hnf, herr, ?_⟩
        · intro x hx
          rcases List.mem_append.1 hx with h1 | h1
          · exact hwf x h1
          · exact hall x h1
        · rw [hup, chunks_cons, hpre, List.map_append, hch, List.append_assoc]
    · rw [hc]
      have hee : e1 = e := by simpa [firstErr, her] using hfe
      subst hee
      have hup : upToFirstErr (r :: rest) = [r] := by simp [upToFirstErr, her]
      refine ⟨st1, endErr e1, ws, hs1, rfl, hws, Or.inl ⟨hwf, rfl, ?_, ?_, ?_⟩⟩
      · have := hoff
        rw [hws] at this
        simpa [offered, upToFirstErr, her, delivered] using this
      · rw [hup, hch]
      · rw [hr1]; simp [upToFirstErr, her]
    · rw [hc]
      refine ⟨st1, _, [w], hs1, rfl, hw,
        Or.inr ⟨[], w, (chunks (upToFirstErr (r :: rest))).tail, by simp,
          by intro x hx; simp at hx, hnf, rfl, ?_⟩⟩
      have hhead : ∃ t, chunks (upToFirstErr (r :: rest)) = r.data :: t := by
        rcases her : r.er with _ | e2
        · refine ⟨chunks (upToFirstErr rest), ?_⟩
          simp [upToFirstErr, her, chunks, hne]
        · refine ⟨[], ?_⟩
          simp [upToFirstErr, her, chunks, hne]
      obtain ⟨t, ht⟩ := hhead
      rw [ht]
      simp [hwd]

theorem delivers_facts {reads : List ReadRes} {src : List Byte} (h : Delivers reads src) :
    firstErr reads = some .EOF ∧ upToFirstErr reads = reads ∧
      (∀ r ∈ reads, r.data.length ≤ bufSize) ∧ delivered reads = src := by
  obtain ⟨body, last, hr, hb, hl, hbd, hd⟩ := h
  refine ⟨?_, ?_, hbd, hd⟩
  · subst hr
    clear hbd hd
    induction body with
    | nil => simp [firstErr, hl]
    | cons r rest ih =>
      have h1 : r.er = none := hb r (List.mem_cons_self _ _)
      simp only [List.cons_append, firstErr, h1]
      exact ih (fun x hx => hb x (List.mem_cons_of_mem _ hx))
  · subst hr
    clear hbd hd
    induction body with
    | nil => simp [upToFirstErr, hl]
    | cons r rest ih =>
      have h1 : r.er = none := hb r (List.mem_cons_self _ _)
      have := ih (fun x hx => hb x (List.mem_cons_of_mem _ hx))
      simp only [List.cons_append, upToFirstErr, h1]
      exact congrArg (List.cons r) this

theorem allFull_of_acceptsAll {dst : Writer} {ws : List WriteCall} (hd : AcceptsAll dst)
    (hw : WritesFrom dst ws) : AllFull ws := by
  intro w hw'
  obtain ⟨i, hi, rfl⟩ := List.getElem_of_mem hw'
  have := hw i hi
  simp only [List.get_eq_getElem] at this
  rw [hd] at this
  exact ⟨this.2, this.1⟩

theorem accepted_of_allFull {ws : List WriteCall} (h : AllFull ws) :
    accepted ws = ((offered ws).length : Int) := by
  induction ws with
  | nil => simp [accepted, offered]
  | cons w rest ih =>
    have hw : FullWrite w := h w (List.mem_cons_self _ _)
    have := ih (fun x hx => h x (List.mem_cons_of_mem _ hx))
    simp only [accepted, offered, List.map_cons, List.sum_cons, List.flatten_cons,
      List.length_append, Nat.cast_add] at this ⊢
    rw [this, hw.2]
    simp

theorem fileContent_of_allFull {ws : List WriteCall} (h : AllFull ws) :
    fileContent ws = offered ws := by
  induction ws with
  | nil => simp [fileContent, offered]
  | cons w rest ih =>
    have hw : FullWrite w := h w (List.mem_cons_self _ _)
    have := ih (fun x hx => h x (List.mem_cons_of_mem _ hx))
    simp only [fileContent, offered, List.map_cons, List.flatten_cons] at this ⊢
    rw [this, hw.2]
    simp

theorem sound_init (dst : Writer) (t : Int) (k : Nat) :
    Sound dst { written := 0, lastUpdate := t, ticks := k, reads := 0, writes := [], out := [] } :=
  ⟨by simp [accepted, wrap64], by intro i hi; simp at hi⟩

/-- With a destination that accepts everything, `copyWithProgress` copies a
delivered source completely. -/
theorem copyWithProgress_acceptsAll (dst : Writer) (reads : List ReadRes) (src : List Byte)
    (total : Int) (op : String) (clock : Nat → Int)
    (hd : Delivers reads src) (ha : AcceptsAll dst) (hlen : (src.length : Int) < 2 ^ 63) :
    ∃ st, copyWithProgress dst reads total op clock = .ret (src.length : Int) none st ∧
      offered st.writes = src ∧ AllFull st.writes ∧ st.reads = reads.length := by
  obtain ⟨hfe, hup, hb, hdel⟩ := delivers_facts hd
  obtain ⟨st', err, ws, hs', hrun, hws, hcase⟩ :=
    copyLoop_ret dst clock total op reads _ .EOF (sound_init dst (clock 0) 1) hb hfe
  simp only [List.nil_append] at hws
  have hall : AllFull st'.writes := allFull_of_acceptsAll ha hs'.src
  rcases hcase with ⟨_, herr, hof, _, hrd⟩ | ⟨ws0, w, _, hw, _, hnf, _, _⟩
  · refine ⟨st', ?_, ?_, hall, ?_⟩
    · unfold copyWithProgress
      rw [hrun, herr, hs'.count, accepted_of_allFull hall, hws, hof, hup, hdel]
      rw [wrap64_of_inRange _ (by omega) hlen]
      simp [endErr]
    · rw [hws, hof, hup, hdel]
    · rw [hrd, hup]; simp
  · exfalso
    apply hnf
    apply hall
    rw [hws, hw]
    simp

theorem ioCopyLoop_acceptsAll (dst : Writer) (ha : AcceptsAll dst) :
    ∀ (reads : List ReadRes) (st : CopyState), (∀ r ∈ reads, r.data.length ≤ bufSize) →
    firstErr reads = some .EOF → 0 ≤ st.written →
    st.written + ((delivered (upToFirstErr reads)).length : Int) < 2 ^ 63 → AllFull st.writes →
    ∃ st', ioCopyLoop dst reads st =
        .ret (st.written + ((delivered (upToFirstErr reads)).length : Int)) none st' ∧
      offered st'.writes = offered st.writes ++ delivered (upToFirstErr reads) ∧
      AllFull st'.writes := by
  intro reads
  induction reads with
  | nil => intro st _ h; simp [firstErr] at h
  | cons r rest ih =>
    intro st hb hfe h0 hlt hfull
    have hbr : r.data.length ≤ bufSize := hb r (List.mem_cons_self _ _)
    have hnb : ¬ r.data.length > bufSize := by omega
    by_cases hemp : r.data = []
    · rcases her : r.er with _ | e
      · have hfe' : firstErr rest = some .EOF := by simpa [firstErr, her] using hfe
        have hup : delivered (upToFirstErr (r :: rest)) = delivered (upToFirstErr rest) := by
          simp [upToFirstErr, her, delivered, hemp]
        rw [hup] at hlt ⊢
        obtain ⟨st', h1, h2, h3⟩ := ih { st with reads := st.reads + 1 }
          (fun x hx => hb x (List.mem_cons_of_mem _ hx)) hfe' h0 hlt hfull
        refine ⟨st', ?_, h2, h3⟩
        simp only [ioCopyLoop, ioCopyIter, hemp, her]
        simpa using h1
      · have hee : e = .EOF := by simpa [firstErr, her] using hfe
        subst hee
        refine ⟨{ st with reads := st.reads + 1 }, ?_, ?_, hfull⟩
        · simp [ioCopyLoop, ioCopyIter, hemp, her, upToFirstErr, delivered, endErr]
        · simp [upToFirstErr, her, delivered, hemp]
    · have hpos : r.data.length > 0 := List.length_pos.2 hemp
      have hw : wrap64 (st.written + (r.data.length : Int)) = st.written + (r.data.length : Int) := by
        apply wrap64_of_inRange
        · omega
        · rcases her : r.er with _ | e
          · simp only [upToFirstErr, her, delivered, List.map_cons, List.flatten_cons,
              List.length_append, Nat.cast_add] at hlt
            omega
          · simp only [upToFirstErr, her, delivered, List.map_cons, List.flatten_cons,
              List.length_append, Nat.cast_add] at hlt
            omega
      have hfull1 : AllFull (st.writes ++ [⟨r.data, (r.data.length : Int), none⟩]) :=
        allFull_append hfull ⟨rfl, rfl⟩
      have hnn : ¬ ((r.data.length : Int) < 0) := by omega
      obtain ⟨st1, hst1⟩ : ∃ st1 : CopyState, st1 =
          { written := st.written + (r.data.length : Int), lastUpdate := st.lastUpdate,
            ticks := st.ticks, reads := st.reads + 1,
            writes := st.writes ++ [⟨r.data, (r.data.length : Int), none⟩], out := st.out } :=
        ⟨_, rfl⟩
      rcases her : r.er with _ | e
      · have hfe' : firstErr rest = some .EOF := by simpa [firstErr, her] using hfe
        have hup : delivered (upToFirstErr (r :: rest)) = r.data ++ delivered (upToFirstErr rest) := by
          simp [upToFirstErr, her, delivered]
        rw [hup] at hlt ⊢
        simp only [List.length_append, Nat.cast_add] at hlt ⊢
        obtain ⟨st', h1, h2, h3⟩ := ih st1
          (fun x hx => hb x (List.mem_cons_of_mem _ hx)) hfe' (by rw [hst1]; simp only; omega)
          (by rw [hst1]; simp only; omega) (by rw [hst1]; exact hfull1)
        refine ⟨st', ?_, ?_, h3⟩
        · rw [hst1] at h1
          simp only [add_assoc] at h1
          simp [ioCopyLoop, ioCopyIter, hpos, hnb, hnn, ha _ _, her, hw, h1]
        · rw [h2, hst1]; simp [offered]
      · have hee : e = .EOF := by simpa [firstErr, her] using hfe
        subst hee
        refine ⟨st1, ?_, ?_, by rw [hst1]; exact hfull1⟩
        · rw [hst1]
          simp [ioCopyLoop, ioCopyIter, hpos, hnb, hnn, ha _ _, her, hw, upToFirstErr, delivered, endErr]
        · rw [hst1]; simp [upToFirstErr, her, delivered, offered]

/-! Lemmas on time and on the library copy -/

theorem durationSub_gt_iff (now t : Int) :
    durationSub now t > 100 * millisecond ↔ now - t > 100 * millisecond := by
  unfold durationSub millisecond
  simp only
  split
  · omega
  · split <;> omega

theorem ioCopy_acceptsAll (dst : Writer) (reads : List ReadRes) (src : List Byte)
    (hd : Delivers reads src) (ha : AcceptsAll dst) (hlen : (src.length : Int) < 2 ^ 63) :
    ∃ st, ioCopy dst reads = .ret (src.length : Int) none st ∧
      offered st.writes = src ∧ AllFull st.writes := by
  obtain ⟨hfe, hup, hb, hdel⟩ := delivers_facts hd
  obtain ⟨st', h1, h2, h3⟩ := ioCopyLoop_acceptsAll dst ha reads
    { written := 0, lastUpdate := 0, ticks := 0, reads := 0, writes := [], out := [] }
    hb hfe (by simp) (by rw [hup, hdel]; simpa using hlen) (by intro w hw; simp at hw)
  rw [hup, hdel] at h1 h2
  refine ⟨st', ?_, by simpa [offered] using h2, h3⟩
  unfold ioCopy
  simpa using h1

theorem sendCopy_acceptsAll (env : SendEnv) (fileSize : Int) (content : List Byte)
    (hd : Delivers env.fileReads content) (ha : AcceptsAll env.conn)
    (hlen : (content.length : Int) < 2 ^ 63) :
    ∃ st, sendCopy env fileSize = .ret (content.length : Int) none st ∧
      offered st.writes = content ∧ fileContent st.writes = content := by
  unfold sendCopy
  split
  · obtain ⟨st, h1, h2, h3, _⟩ := copyWithProgress_acceptsAll env.conn env.fileReads content
      fileSize "Sending" (fun k => env.clock (k + 1)) hd ha hlen
    exact ⟨st, h1, h2, by rw [fileContent_of_allFull h3, h2]⟩
  · obtain ⟨st, h1, h2, h3⟩ := ioCopy_acceptsAll env.conn env.fileReads content hd ha hlen
    exact ⟨st, h1, h2, by rw [fileContent_of_allFull h3, h2]⟩

theorem receiveCopy_acceptsAll (env : RecvEnv) (stream : List Byte)
    (hd : Delivers env.connReads stream) (ha : AcceptsAll env.file)
    (hlen : (stream.length : Int) < 2 ^ 63) :
    ∃ st, receiveCopy env = .ret (stream.length : Int) none st ∧
      fileContent st.writes = stream := by
  unfold receiveCopy
  split
  · obtain ⟨st, h1, h2, h3, _⟩ := copyWithProgress_acceptsAll env.file env.connReads stream 0
      "Receiving" (fun k => env.clock (k + 1)) hd ha hlen
    exact ⟨st, h1, by rw [fileContent_of_allFull h3, h2]⟩
  · obtain ⟨st, h1, h2, h3⟩ := ioCopy_acceptsAll env.file env.connReads stream hd ha hlen
    exact ⟨st, h1, by rw [fileContent_of_allFull h3, h2]⟩

/-! Lemmas on the wrapped counter and on the progress output -/

theorem wrap64_accepted_of_lt (ws : List WriteCall) (h : accepted ws < 2 ^ 63) :
    wrap64 (accepted ws) = accepted ws :=
  wrap64_of_inRange _ (by have := accepted_nonneg ws; omega) h

theorem allFull_dropLast_append (ws : List WriteCall) (w : WriteCall) (h : AllFull ws) :
    AllFull (ws ++ [w]).dropLast := by
  rw [List.dropLast_concat]; exact h

theorem progressUpdate_out (clock : Nat → Int) (total : Int) (op : String) (st : CopyState) :
    ((progressUpdate clock total op st).out = st.out ∧
      (progressUpdate clock total op st).lastUpdate = st.lastUpdate) ∨
    (progressUpdate clock total op st).out.length = st.out.length + 1 := by
  unfold progressUpdate
  simp only
  split
  · right; simp
  · left; exact ⟨rfl, rfl⟩

/-- An iteration after which the loop goes on either printed one line or left
the output and `lastUpdate` as they were. -/
theorem copyIter_next_out (dst : Writer) (clock : Nat → Int) (total : Int) (op : String)
    (r : ReadRes) (st st' : CopyState) (h : copyIter dst clock total op r st = .next st') :
    (st'.out = st.out ∧ st'.lastUpdate = st.lastUpdate) ∨ st'.out.length = st.out.length + 1 := by
  unfold copyIter writeChunk at h
  split at h
  · simp at h
  · rename_i st1 heq
    have hst1 : (st1.out = st.out ∧ st1.lastUpdate = st.lastUpdate) ∨
        st1.out.length = st.out.length + 1 := by
      split at heq
      · split at heq
        · simp at heq
        · simp only at heq
          split at heq
          · simp at heq
          · split at heq
            · simp at heq
            · simp only [Step.next.injEq] at heq
              rw [← heq]
              exact progressUpdate_out _ _ _ _
      · simp only [Step.next.injEq] at heq
        rw [← heq]
        left; exact ⟨rfl, rfl⟩
    split at h
    · split at h <;> simp at h
    · simp only [Step.next.injEq] at h
      rw [← h]
      exact hst1

/-- While the loop runs the output only grows, and `lastUpdate` changes only
when a line is printed. -/
theorem copyLoop_pending_out (dst : Writer) (clock : Nat → Int) (total : Int) (op : String) :
    ∀ (mid : List ReadRes) (st st' : CopyState),
    copyLoop dst clock total op mid st = .pending st' →
    st.out.length ≤ st'.out.length ∧ (st'.out.length = st.out.length →
      st'.lastUpdate = st.lastUpdate) := by
  intro mid
  induction mid with
  | nil =>
    intro st st' h
    simp only [copyLoop, LoopResult.pending.injEq] at h
    subst h
    exact ⟨le_rfl, fun _ => rfl⟩
  | cons r rest ih =>
    intro st st' h
    simp only [copyLoop] at h
    rcases hit : copyIter dst clock total op r st with res | st1
    · rw [hit] at h
      simp only at h
      subst h
      exact absurd hit (copyIter_ne_pending _ _ _ _ _ _ _)
    · rw [hit] at h
      simp only at h
      obtain ⟨h1, h2⟩ := ih st1 st' h
      rcases copyIter_next_out dst clock total op r st st1 hit with ⟨ho, hl⟩ | hg
      · rw [ho] at h1 h2
        rw [hl] at h2
        exact ⟨h1, h2⟩
      · exact ⟨by omega, fun hc => by omega⟩

/-! Lemmas on float64 rounding -/

theorem roundF64_zero : roundF64 0 = 0 := by
  simp [roundF64]

theorem seconds_zero : seconds 0 = 0 := by
  simp [seconds, second, roundF64_zero]

/-- The rounded mantissa of a non-zero value is positive. -/
theorem roundF64_mantissa_pos (q : ℚ) (hq : q ≠ 0) :
    0 < (2 : ℚ) ^ (Int.log 2 |q| - 52) ∧
    1 ≤ |q| / (2 : ℚ) ^ (Int.log 2 |q| - 52) := by
  have habs : 0 < |q| := abs_pos.2 hq
  have h1 : ((2 : ℕ) : ℚ) ^ Int.log 2 |q| ≤ |q| := Int.zpow_log_le_self (by norm_num) habs
  have h2 : (2 : ℚ) ^ (Int.log 2 |q| - 52) ≤ (2 : ℚ) ^ Int.log 2 |q| :=
    zpow_le_zpow_right₀ (by norm_num) (by omega)
  have hpos : 0 < (2 : ℚ) ^ (Int.log 2 |q| - 52) := by positivity
  refine ⟨hpos, ?_⟩
  rw [le_div_iff₀ hpos, one_mul]
  have h1' : (2 : ℚ) ^ Int.log 2 |q| ≤ |q| := by simpa using h1
  linarith

theorem roundF64_pos (q : ℚ) (hq : 0 < q) : 0 < roundF64 q := by
  obtain ⟨hulp, hs⟩ := roundF64_mantissa_pos q (ne_of_gt hq)
  unfold roundF64
  rw [if_neg (ne_of_gt hq)]
  simp only
  rw [if_neg (not_lt.2 (le_of_lt hq)), one_mul]
  have hf : (1 : Int) ≤ ⌊|q| / (2 : ℚ) ^ (Int.log 2 |q| - 52)⌋ := Int.le_floor.2 (by simpa using hs)
  apply mul_pos _ hulp
  have : (0 : Int) < (if |q| / (2 : ℚ) ^ (Int.log 2 |q| - 52) -
        (⌊|q| / (2 : ℚ) ^ (Int.log 2 |q| - 52)⌋ : ℚ) < 1 / 2 then
        ⌊|q| / (2 : ℚ) ^ (Int.log 2 |q| - 52)⌋
      else if |q| / (2 : ℚ) ^ (Int.log 2 |q| - 52) -
        (⌊|q| / (2 : ℚ) ^ (Int.log 2 |q| - 52)⌋ : ℚ) > 1 / 2 then
        ⌊|q| / (2 : ℚ) ^ (Int.log 2 |q| - 52)⌋ + 1
      else if ⌊|q| / (2 : ℚ) ^ (Int.log 2 |q| - 52)⌋ % 2 = 0 then
        ⌊|q| / (2 : ℚ) ^ (Int.log 2 |q| - 52)⌋
      else ⌊|q| / (2 : ℚ) ^ (Int.log 2 |q| - 52)⌋ + 1) := by
    split
    · omega
    · split
      · omega
      · split <;> omega
  exact_mod_cast this

theorem roundF64_neg_arg (q : ℚ) : roundF64 (-q) = -roundF64 q := by
  by_cases hq : q = 0
  · subst hq; simp [roundF64]
  · have hnq : -q ≠ 0 := neg_ne_zero.2 hq
    unfold roundF64
    rw [if_neg hq, if_neg hnq]
    simp only [abs_neg]
    rcases lt_or_gt_of_ne hq with h | h
    · have h' : ¬ (-q < 0) := by linarith
      rw [if_pos h, if_neg h']
      ring
    · have h' : -q < 0 := by linarith
      have h'' : ¬ q < 0 := by linarith
      rw [if_pos h', if_neg h'']
      ring

theorem roundF64_neg (q : ℚ) (hq : q < 0) : roundF64 q < 0 := by
  have := roundF64_pos (-q) (by linarith)
  rw [roundF64_neg_arg] at this
  linarith

theorem roundF64_nonneg (q : ℚ) (hq : 0 ≤ q) : 0 ≤ roundF64 q := by
  rcases eq_or_lt_of_le hq with h | h
  · rw [← h]; simp [roundF64]
  · exact le_of_lt (roundF64_pos q h)

theorem roundF64_nonpos (q : ℚ) (hq : q ≤ 0) : roundF64 q ≤ 0 := by
  rcases eq_or_lt_of_le hq with h | h
  · rw [h]; simp [roundF64]
  · exact le_of_lt (roundF64_neg q h)

theorem neg_tmod_eq (a b : Int) : (-a).tmod b = -(a.tmod b) := by
  have h1 := Int.tdiv_add_tmod (-a) b
  have h2 := Int.tdiv_add_tmod a b
  rw [Int.neg_tdiv] at h1
  have : b * -a.tdiv b = -(b * a.tdiv b) := by ring
  rw [this] at h1
  omega

theorem seconds_neg (d : Int) : seconds (-d) = -seconds d := by
  unfold seconds
  rw [Int.neg_tdiv, neg_tmod_eq]
  push_cast
  rw [roundF64_neg_arg, roundF64_neg_arg, neg_div, roundF64_neg_arg, ← neg_add, roundF64_neg_arg]

theorem seconds_pos (d : Int) (hd : 0 < d) : 0 < seconds d := by
  have hdecomp := Int.tdiv_add_tmod d second
  have hS : 0 ≤ d.tdiv second := Int.tdiv_nonneg (le_of_lt hd) (by unfold second; norm_num)
  have hN : 0 ≤ d.tmod second := Int.tmod_nonneg _ (le_of_lt hd)
  have hA : 0 ≤ roundF64 ((d.tdiv second : Int) : ℚ) := roundF64_nonneg _ (by exact_mod_cast hS)
  have hN' : 0 ≤ roundF64 ((d.tmod second : Int) : ℚ) := roundF64_nonneg _ (by exact_mod_cast hN)
  have hB : 0 ≤ roundF64 (roundF64 ((d.tmod second : Int) : ℚ) / 1000000000) :=
    roundF64_nonneg _ (by positivity)
  unfold seconds
  apply roundF64_pos
  rcases eq_or_lt_of_le hS with h0 | hpos
  · have hNpos : 0 < d.tmod second := by
      rw [← h0] at hdecomp
      omega
    have h1 : 0 < roundF64 ((d.tmod second : Int) : ℚ) := roundF64_pos _ (by exact_mod_cast hNpos)
    have h2 : 0 < roundF64 (roundF64 ((d.tmod second : Int) : ℚ) / 1000000000) :=
      roundF64_pos _ (by positivity)
    linarith
  · have h1 : 0 < roundF64 ((d.tdiv second : Int) : ℚ) := roundF64_pos _ (by exact_mod_cast hpos)
    linarith

theorem seconds_eq_zero_iff (d : Int) : seconds d = 0 ↔ d = 0 := by
  constructor
  · intro h
    by_contra hd
    rcases lt_or_gt_of_ne hd with hneg | hpos
    · have := seconds_pos (-d) (by omega)
      rw [seconds_neg, h] at this
      simp at this
    · have := seconds_pos d hpos
      rw [h] at this
      simp at this
  · intro h; subst h; simp [seconds, second, roundF64]

/-! Evaluation of the float64 model -/

theorem log2_eq (q : ℚ) (e : Int) (hq : 0 < q) (h1 : (2 : ℚ) ^ e ≤ q) (h2 : q < (2 : ℚ) ^ (e + 1)) :
    Int.log 2 q = e := by
  have ha : e ≤ Int.log 2 q := (Int.zpow_le_iff_le_log (by norm_num) hq).1 (by simpa using h1)
  have hb : Int.log 2 q < e + 1 := (Int.lt_zpow_iff_log_lt (by norm_num) hq).1 (by simpa using h2)
  omega

/-- Evaluation of `roundF64` at a positive value from its binary exponent `e`
and the integer part `f` of its scaled mantissa. -/
theorem roundF64_eval (q : ℚ) (e f : Int) (hq : 0 < q) (h1 : (2 : ℚ) ^ e ≤ q)
    (h2 : q < (2 : ℚ) ^ (e + 1)) (hf1 : (f : ℚ) ≤ q / (2 : ℚ) ^ (e - 52))
    (hf2 : q / (2 : ℚ) ^ (e - 52) < (f : ℚ) + 1) :
    roundF64 q =
      ((if q / (2 : ℚ) ^ (e - 52) - (f : ℚ) < 1 / 2 then f
        else if q / (2 : ℚ) ^ (e - 52) - (f : ℚ) > 1 / 2 then f + 1
        else if f % 2 = 0 then f else f + 1 : Int) : ℚ) * (2 : ℚ) ^ (e - 52) := by
  have hlog : Int.log 2 q = e := log2_eq q e hq h1 h2
  have hfl : ⌊q / (2 : ℚ) ^ (e - 52)⌋ = f := Int.floor_eq_iff.2 ⟨hf1, hf2⟩
  unfold roundF64
  rw [if_neg (ne_of_gt hq)]
  simp only [abs_of_pos hq, hlog, hfl]
  rw [if_neg (not_lt.2 (le_of_lt hq)), one_mul]

theorem roundF64_one : roundF64 1 = 1 := by
  rw [roundF64_eval 1 0 4503599627370496 (by norm_num) (by norm_num) (by norm_num)
    (by norm_num) (by norm_num)]
  norm_num

theorem seconds_one_second : seconds 1000000000 = 1 := by
  unfold seconds second
  have h1 : (1000000000 : Int).tdiv 1000000000 = 1 := by decide
  have h2 : (1000000000 : Int).tmod 1000000000 = 0 := by decide
  rw [h1, h2]
  simp [roundF64_zero, roundF64_one]

theorem roundF64_tie : roundF64 9007199254740993 = 9007199254740992 := by
  rw [roundF64_eval 9007199254740993 53 4503599627370496 (by norm_num) (by norm_num)
    (by norm_num) (by norm_num) (by norm_num)]
  norm_num

theorem roundF64_pow53 : roundF64 9007199254740992 = 9007199254740992 := by
  rw [roundF64_eval 9007199254740992 53 4503599627370496 (by norm_num) (by norm_num)
    (by norm_num) (by norm_num) (by norm_num)]
  norm_num

theorem calculateSpeed_tie (convOut : ℚ → Int) :
    calculateSpeed convOut 9007199254740993 1000000000 =
      ⟨9007199254740992, some (9007199254740992, 1)⟩ := by
  unfold calculateSpeed
  rw [seconds_one_second]
  simp only [one_ne_zero, if_false, div_one]
  push_cast
  rw [roundF64_tie, roundF64_pow53]
  simp [toInt64]

theorem roundF64_nano : roundF64 (1 / 1000000000) = 4835703278458517 / 2 ^ 82 := by
  rw [roundF64_eval (1 / 1000000000) (-30) 4835703278458516 (by norm_num) (by norm_num)
    (by norm_num) (by norm_num) (by norm_num)]
  norm_num

theorem roundF64_nano_exact :
    roundF64 (4835703278458517 / 2 ^ 82) = 4835703278458517 / 2 ^ 82 := by
  rw [roundF64_eval (4835703278458517 / 2 ^ 82) (-30) 4835703278458517 (by norm_num)
    (by norm_num) (by norm_num) (by norm_num) (by norm_num)]
  norm_num

theorem seconds_one_nanosecond : seconds 1 = 4835703278458517 / 2 ^ 82 := by
  unfold seconds second
  have h1 : (1 : Int).tdiv 1000000000 = 0 := by decide
  have h2 : (1 : Int).tmod 1000000000 = 1 := by decide
  rw [h1, h2]
  simp only [Int.cast_zero, Int.cast_one, roundF64_zero, roundF64_one, zero_add]
  rw [roundF64_nano, roundF64_nano_exact]

theorem roundF64_quotient :
    roundF64 (1 / (4835703278458517 / 2 ^ 82)) = 8388607999999999 / 2 ^ 23 := by
  rw [roundF64_eval (1 / (4835703278458517 / 2 ^ 82)) 29 8388607999999999 (by norm_num)
    (by norm_num) (by norm_num) (by norm_num) (by norm_num)]
  norm_num

theorem calculateSpeed_one_nanosecond (convOut : ℚ → Int) :
    (calculateSpeed convOut 1 1).result = 999999999 := by
  unfold calculateSpeed
  rw [seconds_one_nanosecond]
  have hne : ¬ ((4835703278458517 : ℚ) / 2 ^ 82 = 0) := by norm_num
  rw [if_neg hne]
  simp only [Int.cast_one, roundF64_one]
  rw [roundF64_quotient]
  have hq : ((8388607999999999 : ℚ) / 2 ^ 23) = ((8388607999999999 : Int) : ℚ) / ((8388608 : Int) : ℚ) := by
    norm_num
  have hnum : ((8388607999999999 : ℚ) / 2 ^ 23).num = 8388607999999999 := by
    rw [hq, Rat.num_div_eq_of_coprime (by norm_num) (by norm_num)]
  have hden : (((8388607999999999 : ℚ) / 2 ^ 23).den : Int) = 8388608 := by
    rw [hq, Rat.den_div_eq_of_coprime (by norm_num) (by norm_num)]
  have htd : Int.tdiv 8388607999999999 8388608 = 999999999 := by decide
  simp only [toInt64, hnum, hden, htd]
  norm_num

/-! The claims -/

/-- Claim C1: for every source byte sequence `src` and every way `reads` in
which the reader delivers it (each read at most 32768 bytes, the last one
signalling `io.EOF`, with or without data), if the destination accepts every
write in full and without error, `copyWithProgress` and
`copyWithProgressUnknownSize` return `(len(src), nil)` and the bytes offered to
the destination, concatenated in write order, are `src`; for every `total`,
`operation` and clock. The length of the source is taken within the int64
range of the returned count. -/
theorem copyWithProgress_copies_source (src : List Byte) (reads : List ReadRes) (dst : Writer)
    (total : Int) (operation : String) (clock : Nat → Int)
    (hreads : Delivers reads src) (hdst : AcceptsAll dst) (hlen : (src.length : Int) < 2 ^ 63) :
    (∃ st, copyWithProgress dst reads total operation clock = .ret (src.length : Int) none st ∧
      offered st.writes = src) ∧
    (∃ st, copyWithProgressUnknownSize dst reads operation clock =
        .ret (src.length : Int) none st ∧ offered st.writes = src) := by
  constructor
  · obtain ⟨st, h1, h2, _⟩ :=
      copyWithProgress_acceptsAll dst reads src total operation clock hreads hdst hlen
    exact ⟨st, h1, h2⟩
  · obtain ⟨st, h1, h2, _⟩ :=
      copyWithProgress_acceptsAll dst reads src 0 operation clock hreads hdst hlen
    exact ⟨st, h1, h2⟩

theorem copyWithProgress_copies_source_witness :
    (∃ st, copyWithProgress (fun _ d => ((d.length : Int), none))
        [⟨[1, 2], none⟩, ⟨[], none⟩, ⟨[3], some .EOF⟩] 3 "Sending" (fun k => (k : Int)) =
          .ret (([1, 2, 3] : List Byte).length : Int) none st ∧ offered st.writes = [1, 2, 3]) ∧
    (∃ st, copyWithProgressUnknownSize (fun _ d => ((d.length : Int), none))
        [⟨[1, 2], none⟩, ⟨[], none⟩, ⟨[3], some .EOF⟩] "Sending" (fun k => (k : Int)) =
          .ret (([1, 2, 3] : List Byte).length : Int) none st ∧ offered st.writes = [1, 2, 3]) :=
  copyWithProgress_copies_source [1, 2, 3] [⟨[1, 2], none⟩, ⟨[], none⟩, ⟨[3], some .EOF⟩]
    (fun _ d => ((d.length : Int), none)) 3 "Sending" (fun k => (k : Int))
    ⟨[⟨[1, 2], none⟩, ⟨[], none⟩], ⟨[3], some .EOF⟩, rfl, by simp, rfl,
      by simp [bufSize], by simp [delivered]⟩
    (fun _ _ => rfl) (by norm_num)

/-- Claim C2: round trip. The sender's file delivers `content` in any chunking
and the connection accepts every write; the receiver's connection delivers, in
any re-chunking and ending with `io.EOF`, exactly the bytes that `sendFile` put
on the connection, and the destination file accepts every write. Then `sendFile`
returns normally, its copy put exactly `content` on the connection and it
reports `len(content)` bytes; `receiveFile` returns normally, reports
`len(content)` bytes, and the destination path holds `content`, whatever the
receiver's file system held before; with or without progress display on either
side. -/
theorem send_receive_roundtrip (content : List Byte) (senv : SendEnv) (renv : RecvEnv)
    (sfs rfs : FileSys) (remoteIP peerIP sourceIPFilter : String) (port : Int)
    (sentPath savePath : String) (fileSize : Int)
    (hsize : (content.length : Int) < 2 ^ 63)
    (hdial : senv.dialErr = none) (hopen : senv.openErr = none)
    (hstat : senv.stat = .ok fileSize)
    (hsum : senv.verify = true → ∃ c, senv.checksum = .ok c)
    (hfile : Delivers senv.fileReads content) (hconn : AcceptsAll senv.conn)
    (hlisten : renv.listenErr = none) (haccept : renv.accept = .ok peerIP)
    (hpeer : sourceIPFilter = "" ∨ peerIP = sourceIPFilter)
    (hmkdir : ∀ e b, renv.mkdirAllErr = some (e, b) → b = true)
    (hcreate : renv.createErr = none) (hdst : AcceptsAll renv.file)
    (hstream : Delivers renv.connReads (sendFile senv sfs remoteIP port sentPath).wire) :
    (sendFile senv sfs remoteIP port sentPath).ending = .returned ∧
    (sendFile senv sfs remoteIP port sentPath).reported = some (content.length : Int) ∧
    (sendFile senv sfs remoteIP port sentPath).wire = content ∧
    (∃ st, (sendFile senv sfs remoteIP port sentPath).copy =
        some (.ret (content.length : Int) none st) ∧ offered st.writes = content) ∧
    (sendFile senv sfs remoteIP port sentPath).fs = sfs ∧
    (receiveFile renv rfs sourceIPFilter port savePath).ending = .returned ∧
    (receiveFile renv rfs sourceIPFilter port savePath).reported = some (content.length : Int) ∧
    (receiveFile renv rfs sourceIPFilter port savePath).fs savePath = some (.file content) := by
  obtain ⟨sst, hsend, hsent, hwire⟩ := sendCopy_acceptsAll senv fileSize content hfile hconn hsize
  have hS : (sendFile senv sfs remoteIP port sentPath).ending = .returned ∧
      (sendFile senv sfs remoteIP port sentPath).reported = some (content.length : Int) ∧
      (sendFile senv sfs remoteIP port sentPath).wire = content ∧
      (sendFile senv sfs remoteIP port sentPath).copy =
        some (.ret (content.length : Int) none sst) ∧
      (sendFile senv sfs remoteIP port sentPath).fs = sfs := by
    unfold Session.wire sendFile
    simp only [hdial, hopen, hstat]
    by_cases hv : senv.verify = true
    · obtain ⟨c, hc⟩ := hsum hv
      simp [hv, hc, hsend, hwire, LoopResult.state]
    · simp [hv, hsend, hwire, LoopResult.state]
  rw [hS.2.2.1] at hstream
  obtain ⟨rst, hrecv, hcontent⟩ := receiveCopy_acceptsAll renv content hstream hdst hsize
  have hnorej : ¬ (sourceIPFilter ≠ "" ∧ peerIP ≠ sourceIPFilter) := by
    rintro ⟨h1, h2⟩
    rcases hpeer with h | h
    · exact h1 h
    · exact h2 h
  have hmk : mkdirFailed renv.mkdirAllErr = false := by
    rcases hm : renv.mkdirAllErr with _ | ⟨e, b⟩
    · rfl
    · simp [mkdirFailed, hmkdir e b hm]
  have hR : (receiveFile renv rfs sourceIPFilter port savePath).ending = .returned ∧
      (receiveFile renv rfs sourceIPFilter port savePath).reported = some (content.length : Int) ∧
      (receiveFile renv rfs sourceIPFilter port savePath).fs savePath = some (.file content) := by
    unfold receiveFile
    simp only [hlisten, haccept, if_neg hnorej, hcreate, hrecv]
    simp [LoopResult.state, hcontent, hmk]
  exact ⟨hS.1, hS.2.1, hS.2.2.1, ⟨sst, hS.2.2.2.1, hsent⟩, hS.2.2.2.2, hR.1, hR.2.1, hR.2.2⟩

theorem send_receive_roundtrip_witness :
    (sendFile demoSendEnv demoFs "10.0.0.5" 4444 "in.bin").ending = .returned ∧
    (sendFile demoSendEnv demoFs "10.0.0.5" 4444 "in.bin").reported =
      some (([1, 2, 3] : List Byte).length : Int) ∧
    (sendFile demoSendEnv demoFs "10.0.0.5" 4444 "in.bin").wire = [1, 2, 3] ∧
    (∃ st, (sendFile demoSendEnv demoFs "10.0.0.5" 4444 "in.bin").copy =
        some (.ret (([1, 2, 3] : List Byte).length : Int) none st) ∧
        offered st.writes = [1, 2, 3]) ∧
    (sendFile demoSendEnv demoFs "10.0.0.5" 4444 "in.bin").fs = demoFs ∧
    (receiveFile demoRecvEnv demoFs "" 4444 "out.bin").ending = .returned ∧
    (receiveFile demoRecvEnv demoFs "" 4444 "out.bin").reported =
      some (([1, 2, 3] : List Byte).length : Int) ∧
    (receiveFile demoRecvEnv demoFs "" 4444 "out.bin").fs "out.bin" = some (.file [1, 2, 3]) :=
  send_receive_roundtrip [1, 2, 3] demoSendEnv demoRecvEnv demoFs demoFs "10.0.0.5" "10.0.0.7" ""
    4444 "in.bin" "out.bin" 3 (by norm_num) rfl rfl rfl (fun h => absurd h (by decide))
    ⟨[⟨[1, 2], none⟩, ⟨[3], none⟩], ⟨[], some .EOF⟩, rfl, by decide, rfl, by decide, by decide⟩
    (fun _ _ => rfl) rfl rfl (Or.inl rfl) (fun _ _ h => nomatch h) rfl (fun _ _ => rfl)
    ⟨[⟨[1], none⟩], ⟨[2, 3], some .EOF⟩, rfl, by decide, rfl, by decide, by decide⟩

/-- Claim C3: when the peer filter is non-empty and differs from the textual
source IP of the accepted connection, `receiveFile` returns normally, leaves
the file system unchanged, starts no copy (no byte is read from the
connection), performs no `MkdirAll` and no `Create`, calls `Accept` exactly
once, and closes the rejected connection. -/
theorem receiveFile_rejects_mismatched_peer (env : RecvEnv) (fs : FileSys)
    (sourceIPFilter remoteIP : String) (port : Int) (filePath : String)
    (hlisten : env.listenErr = none) (haccept : env.accept = .ok remoteIP)
    (hfilter : sourceIPFilter ≠ "") (hmismatch : remoteIP ≠ sourceIPFilter) :
    (receiveFile env fs sourceIPFilter port filePath).ending = .returned ∧
    (receiveFile env fs sourceIPFilter port filePath).fs = fs ∧
    (receiveFile env fs sourceIPFilter port filePath).copy = none ∧
    (receiveFile env fs sourceIPFilter port filePath).reported = none ∧
    (∀ ev ∈ (receiveFile env fs sourceIPFilter port filePath).events,
      (∀ d, ev ≠ .mkdirAll d) ∧ (∀ p, ev ≠ .create p) ∧ (∀ b, ev ≠ .copy b)) ∧
    (receiveFile env fs sourceIPFilter port filePath).events.count .accept = 1 ∧
    Event.closeConn ∈ (receiveFile env fs sourceIPFilter port filePath).events := by
  have hrun : receiveFile env fs sourceIPFilter port filePath =
      ⟨.returned, fs,
        (if env.listenAll then [Event.log "Listening on all interfaces at port %d"]
          else [Event.log "Listening on port %d, will accept connections only from %s"]) ++
        [.listen "0.0.0.0" port, .log "Waiting for connection (timeout: %ds)...",
          .setListenerDeadline env.timeout, .accept,
          .log "✗ Rejected connection from %s (expected %s)", .closeConn, .closeListener],
        none, none⟩ := by
    unfold receiveFile
    simp only [hlisten, haccept]
    rw [if_pos ⟨hfilter, hmismatch⟩]
    simp [hfilter]
  rw [hrun]
  refine ⟨rfl, rfl, rfl, rfl, ?_, ?_, ?_⟩
  · intro ev hev
    by_cases hall : env.listenAll = true <;> simp [hall] at hev <;>
      rcases hev with h | h | h | h | h | h | h | h <;> subst h <;> simp
  · by_cases hall : env.listenAll = true <;> simp [hall, List.count_cons]
  · by_cases hall : env.listenAll = true <;> simp [hall]

theorem receiveFile_rejects_mismatched_peer_witness :
    (receiveFile demoRecvEnv demoFs "10.0.0.5" 4444 "out.bin").ending = .returned ∧
    (receiveFile demoRecvEnv demoFs "10.0.0.5" 4444 "out.bin").fs = demoFs ∧
    (receiveFile demoRecvEnv demoFs "10.0.0.5" 4444 "out.bin").copy = none ∧
    (receiveFile demoRecvEnv demoFs "10.0.0.5" 4444 "out.bin").reported = none ∧
    (∀ ev ∈ (receiveFile demoRecvEnv demoFs "10.0.0.5" 4444 "out.bin").events,
      (∀ d, ev ≠ .mkdirAll d) ∧ (∀ p, ev ≠ .create p) ∧ (∀ b, ev ≠ .copy b)) ∧
    (receiveFile demoRecvEnv demoFs "10.0.0.5" 4444 "out.bin").events.count .accept = 1 ∧
    Event.closeConn ∈ (receiveFile demoRecvEnv demoFs "10.0.0.5" 4444 "out.bin").events :=
  receiveFile_rejects_mismatched_peer demoRecvEnv demoFs "10.0.0.5" "10.0.0.7" 4444 "out.bin"
    rfl rfl (by decide) (by decide)

/-- Claim C4: with one positional path and an empty mode, the mode is resolved
to `send` if the path exists and to `receive` otherwise, and `main` acts on that
role: for an existing path it takes the send branch (usage exit without address
or port, else `sendFile`), for a missing path the receive branch (usage exit
without port, else `receiveFile`). A non-empty mode is left as given: with
`receive` given `main` takes the receive branch whether or not the path exists,
and with `send` given it never receives. -/
theorem main_auto_detects_role (fs : FileSys) (flags : Flags) (filePath : String) :
    resolveMode fs "" filePath = (if fileExists fs filePath then "send" else "receive") ∧
    main fs { flags with mode := "" } [filePath] =
      (if fileExists fs filePath then
        (if flags.remoteIP = "" ∨ flags.port = 0 then .exit 1
          else .sendFile flags.remoteIP flags.port filePath)
      else
        (if flags.port = 0 then .exit 1
          else .receiveFile flags.remoteIP flags.port filePath)) ∧
    (flags.mode ≠ "" → resolveMode fs flags.mode filePath = flags.mode) ∧
    main fs { flags with mode := "receive" } [filePath] =
      (if flags.port = 0 then .exit 1
        else .receiveFile flags.remoteIP flags.port filePath) ∧
    main fs { flags with mode := "send" } [filePath] =
      (if flags.remoteIP = "" ∨ flags.port = 0 then .exit 1
        else if fileExists fs filePath then .sendFile flags.remoteIP flags.port filePath
        else .fatal "File does not exist: %s") := by
  refine ⟨by simp [resolveMode], ?_, ?_, ?_, ?_⟩
  · by_cases h : fileExists fs filePath = true
    · by_cases h1 : flags.remoteIP = "" ∨ flags.port = 0
      · simp [main, resolveMode, h, h1]
      · simp [main, resolveMode, h, h1]
    · by_cases h1 : flags.port = 0
      · simp [main, resolveMode, h, h1]
      · simp [main, resolveMode, h, h1]
  · intro h; simp [resolveMode, h]
  · by_cases h1 : flags.port = 0
    · simp [main, resolveMode, h1]
    · simp [main, resolveMode, h1]
  · by_cases h1 : flags.remoteIP = "" ∨ flags.port = 0
    · simp [main, resolveMode, h1]
    · by_cases h : fileExists fs filePath = true
      · simp [main, resolveMode, h, h1]
      · simp [main, resolveMode, h, h1]

/-- Claim C5: the dispatcher after role resolution. Send without remote
address or with port 0: exit status 1. Send with address and port but a missing
file: fatal termination, exit status 1. Receive with port 0: exit status 1. Any
other mode string: exit status 1. In the remaining cases `sendFile`,
respectively `receiveFile`, is called with the given address, port and path. -/
theorem main_dispatch (fs : FileSys) (flags : Flags) (filePath : String) :
    (resolveMode fs flags.mode filePath = "send" → (flags.remoteIP = "" ∨ flags.port = 0) →
      main fs flags [filePath] = .exit 1) ∧
    (resolveMode fs flags.mode filePath = "send" → flags.remoteIP ≠ "" → flags.port ≠ 0 →
      fileExists fs filePath = false →
      main fs flags [filePath] = .fatal "File does not exist: %s" ∧
      (main fs flags [filePath]).exitStatus = some 1) ∧
    (resolveMode fs flags.mode filePath = "receive" → flags.port = 0 →
      main fs flags [filePath] = .exit 1) ∧
    (resolveMode fs flags.mode filePath ≠ "send" →
      resolveMode fs flags.mode filePath ≠ "receive" → main fs flags [filePath] = .exit 1) ∧
    (resolveMode fs flags.mode filePath = "send" → flags.remoteIP ≠ "" → flags.port ≠ 0 →
      fileExists fs filePath = true →
      main fs flags [filePath] = .sendFile flags.remoteIP flags.port filePath) ∧
    (resolveMode fs flags.mode filePath = "receive" → flags.port ≠ 0 →
      main fs flags [filePath] = .receiveFile flags.remoteIP flags.port filePath) := by
  refine ⟨?_, ?_, ?_, ?_, ?_, ?_⟩
  · intro hm h
    simp [main, hm, h]
  · intro hm h1 h2 h3
    have : main fs flags [filePath] = .fatal "File does not exist: %s" := by
      simp [main, hm, h1, h2, h3]
    exact ⟨this, by rw [this]; rfl⟩
  · intro hm h
    simp [main, hm, h]
  · intro h1 h2
    simp [main, h1, h2]
  · intro hm h1 h2 h3
    simp [main, hm, h1, h2, h3]
  · intro hm h
    simp [main, hm, h]

/-- Claim C6, amended: the copy is still running after the reads `pre`, and the
next read delivers data for which the destination returns no error but a count
`nw` different from the number of bytes offered. Then the copy returns
`io.ErrShortWrite`; that write is the last one, no read after it is made (the
reads `post` are not consumed) and nothing more is printed. The count returned
is the total the destination reported as accepted up to and including that
write (a non-positive `nw` adds nothing), reduced to the int64 range by
wrap-around: it is that total whenever the total is below `2^63`. -/
theorem copyWithProgress_short_write (dst : Writer) (pre : List ReadRes) (r : ReadRes)
    (post : List ReadRes) (total : Int) (operation : String) (clock : Nat → Int)
    (st : CopyState) (nw : Int)
    (hrun : copyWithProgress dst pre total operation clock = .pending st)
    (hpos : 0 < r.data.length) (hle : r.data.length ≤ bufSize)
    (hw : dst st.writes.length r.data = (nw, none)) (hne : nw ≠ (r.data.length : Int)) :
    ∃ st', copyWithProgress dst (pre ++ r :: post) total operation clock =
        .ret (wrap64 (accepted (st.writes ++ [⟨r.data, nw, none⟩]))) (some .ErrShortWrite) st' ∧
      st'.writes = st.writes ++ [⟨r.data, nw, none⟩] ∧
      st'.reads = pre.length + 1 ∧ st'.out = st.out ∧
      (accepted (st.writes ++ [⟨r.data, nw, none⟩]) < 2 ^ 63 →
        wrap64 (accepted (st.writes ++ [⟨r.data, nw, none⟩])) =
          accepted (st.writes ++ [⟨r.data, nw, none⟩])) := by
  unfold copyWithProgress at hrun ⊢
  obtain ⟨hs, _, hreads, _, _⟩ := copyLoop_pending_inv dst clock total operation pre _ st
    (sound_init dst (clock 0) 1) (by intro w hw; simp at hw) hrun
  rw [copyLoop_append_pending dst clock total operation (r :: post) pre _ st hrun]
  have hnb : ¬ r.data.length > bufSize := by omega
  have hne' : ¬ (r.data.length : Int) = nw := fun h => hne h.symm
  have hcount : (if nw > 0 then wrap64 (st.written + nw) else st.written) =
      wrap64 (accepted (st.writes ++ [⟨r.data, nw, none⟩])) := by
    rw [accepted_append]
    simp only
    rw [hs.count]
    split
    · rename_i h
      rw [wrap64_add_wrap64, max_eq_left (le_of_lt h)]
    · rename_i h
      rw [max_eq_right (by omega), add_zero]
  refine ⟨{ st with
      reads := st.reads + 1
      written := wrap64 (accepted (st.writes ++ [⟨r.data, nw, none⟩]))
      writes := st.writes ++ [⟨r.data, nw, none⟩] }, ?_, rfl, ?_, rfl,
      wrap64_accepted_of_lt _⟩
  · simp only [copyLoop, copyIter, writeChunk, hpos, hnb, hw, hne', hcount]
    simp [hne']
  · simp only [hreads]; simp

theorem copyWithProgress_short_write_witness :
    ∃ st', copyWithProgress (fun k d => if k = 0 then ((d.length : Int), none) else (1, none))
        ([⟨[1, 2], none⟩] ++ ⟨[3, 4, 5], none⟩ :: [⟨[6], some .EOF⟩]) 6 "Sending" tickClock =
        .ret (wrap64 (accepted ([⟨[1, 2], 2, none⟩] ++ [⟨[3, 4, 5], 1, none⟩])))
          (some .ErrShortWrite) st' ∧
      st'.writes = [⟨[1, 2], 2, none⟩] ++ [⟨[3, 4, 5], 1, none⟩] ∧
      st'.reads = [(⟨[1, 2], none⟩ : ReadRes)].length + 1 ∧ st'.out = [] ∧
      (accepted ([⟨[1, 2], 2, none⟩] ++ [⟨[3, 4, 5], 1, none⟩]) < 2 ^ 63 →
        wrap64 (accepted ([⟨[1, 2], 2, none⟩] ++ [⟨[3, 4, 5], 1, none⟩])) =
          accepted ([⟨[1, 2], 2, none⟩] ++ [⟨[3, 4, 5], 1, none⟩])) :=
  copyWithProgress_short_write (fun k d => if k = 0 then ((d.length : Int), none) else (1, none))
    [⟨[1, 2], none⟩] ⟨[3, 4, 5], none⟩ [⟨[6], some .EOF⟩] 6 "Sending" tickClock
    { written := 2, lastUpdate := 0, ticks := 2, reads := 1, writes := [⟨[1, 2], 2, none⟩], out := [] }
    1 (by decide) (by decide) (by decide) (by decide) (by decide)

/-- Claim C6 as stated fails: the second write answers `(MaxInt64, nil)` after a
first write of two bytes; the copy returns `io.ErrShortWrite` with the count
`-9223372036854775807`, while the destination reported `9223372036854775809`
bytes as accepted. -/
theorem short_write_count_wraps :
    copyWithProgress
        (fun k d => if k = 0 then ((d.length : Int), none) else (9223372036854775807, none))
        [⟨[1, 2], none⟩, ⟨[3], none⟩] 3 "Sending" tickClock =
      .ret (-9223372036854775807) (some .ErrShortWrite)
        { written := -9223372036854775807, lastUpdate := 0, ticks := 2, reads := 2,
          writes := [⟨[1, 2], 2, none⟩, ⟨[3], 9223372036854775807, none⟩], out := [] } ∧
    accepted [⟨[1, 2], 2, none⟩, ⟨[3], 9223372036854775807, none⟩] = 9223372036854775809 := by
  constructor
  · decide
  · decide

/-- Claim C7, amended: for every script of reads (each within the buffer) that
contains an error, and every destination, `copyWithProgress` returns. The writes
made are the destination's answers to the non-empty buffers read, in order, and
every write before the last succeeded in full. The error is `nil` exactly when
every write succeeded in full and the first source error is `io.EOF`. When every
write succeeded in full, the loop ended at the first source error `e`, which is
returned unless it is `io.EOF`, and every buffer read up to and including the
failing read was written. A write that did not succeed in full is the last
write, and its error (`io.ErrShortWrite` if it returned none) is the one
returned, whatever the read of that iteration returned. The count returned is
the total the destination reported as accepted, reduced to the int64 range by
wrap-around: it is that total whenever the total is below `2^63`. -/
theorem copyWithProgress_error_propagation (dst : Writer) (reads : List ReadRes) (total : Int)
    (operation : String) (clock : Nat → Int) (e : GoError)
    (hbuf : ∀ r ∈ reads, r.data.length ≤ bufSize) (hfirst : firstErr reads = some e) :
    ∃ c err st, copyWithProgress dst reads total operation clock = .ret c err st ∧
      WritesFrom dst st.writes ∧
      (∃ tail, chunks (upToFirstErr reads) = st.writes.map (fun w => w.data) ++ tail) ∧
      AllFull st.writes.dropLast ∧
      (err = none ↔ AllFull st.writes ∧ e = .EOF) ∧
      (AllFull st.writes →
        err = endErr e ∧ st.writes.map (fun w => w.data) = chunks (upToFirstErr reads) ∧
        offered st.writes = delivered (upToFirstErr reads) ∧
        st.reads = (upToFirstErr reads).length) ∧
      (∀ w ∈ st.writes, ¬ FullWrite w →
        st.writes.getLast? = some w ∧ err = some (w.ew.getD .ErrShortWrite)) ∧
      c = wrap64 (accepted st.writes) ∧
      (accepted st.writes < 2 ^ 63 → c = accepted st.writes) := by
  obtain ⟨st, err, ws, hs, hrun, hws, hcase⟩ :=
    copyLoop_ret dst clock total operation reads _ e (sound_init dst (clock 0) 1) hbuf hfirst
  simp only [List.nil_append] at hws
  refine ⟨st.written, err, st, hrun, hs.src, ?_, ?_, ?_, ?_, ?_, hs.count, ?_⟩
  · rcases hcase with ⟨_, _, _, hcw, _⟩ | ⟨ws0, w, tail, _, _, _, _, hpre⟩
    · exact ⟨[], by rw [hws, hcw]; simp⟩
    · exact ⟨tail, by rw [hws, hpre]⟩
  · rcases hcase with ⟨hall, _, _, _, _⟩ | ⟨ws0, w, tail, hw, hall0, _, _, _⟩
    · rw [hws]
      intro x hx
      exact hall x (List.mem_of_mem_dropLast hx)
    · rw [hws, hw]
      exact allFull_dropLast_append ws0 w hall0
  · rcases hcase with ⟨hall, herr, _, _, _⟩ | ⟨ws0, w, tail, hw, _, hnf, herr, _⟩
    · rw [hws, herr]
      unfold endErr
      constructor
      · intro h
        refine ⟨hall, ?_⟩
        by_contra hne
        rw [if_neg hne] at h
        exact absurd h (by simp)
      · intro h; rw [if_pos h.2]
    · rw [herr]
      constructor
      · intro h; exact absurd h (by simp)
      · intro h
        exfalso
        exact hnf (h.1 w (by rw [hws, hw]; simp))
  · intro hall
    rcases hcase with ⟨_, herr, hof, hcw, hrd⟩ | ⟨ws0, w, tail, hw, _, hnf, _, _⟩
    · exact ⟨herr, by rw [hws, hcw], by rw [hws, hof], by rw [hrd]; simp⟩
    · exfalso
      exact hnf (hall w (by rw [hws, hw]; simp))
  · intro w hw hnfw
    rcases hcase with ⟨hall, _, _, _, _⟩ | ⟨ws0, w0, tail, hw0, hall0, _, herr, _⟩
    · exact absurd (hall w (hws ▸ hw)) hnfw
    · rw [hws, hw0] at hw ⊢
      rcases List.mem_append.1 hw with h1 | h1
      · exact absurd (hall0 w h1) hnfw
      · have hww : w = w0 := List.mem_singleton.1 h1
        subst hww
        exact ⟨by simp, herr⟩
  · intro hlt
    rw [hs.count]
    exact wrap64_accepted_of_lt _ hlt

theorem copyWithProgress_error_propagation_witness :
    ∃ c err st, copyWithProgress
        (fun k d => if k = 0 then ((d.length : Int), none) else (1, some (.other 7)))
        [⟨[1, 2], none⟩, ⟨[3, 4], some (.other 9)⟩] 4 "Sending" tickClock = .ret c err st ∧
      WritesFrom (fun k d => if k = 0 then ((d.length : Int), none) else (1, some (.other 7)))
        st.writes ∧
      (∃ tail, chunks (upToFirstErr [⟨[1, 2], none⟩, ⟨[3, 4], some (.other 9)⟩]) =
        st.writes.map (fun w => w.data) ++ tail) ∧
      AllFull st.writes.dropLast ∧
      (err = none ↔ AllFull st.writes ∧ GoError.other 9 = .EOF) ∧
      (AllFull st.writes →
        err = endErr (.other 9) ∧
        st.writes.map (fun w => w.data) =
          chunks (upToFirstErr [⟨[1, 2], none⟩, ⟨[3, 4], some (.other 9)⟩]) ∧
        offered st.writes = delivered (upToFirstErr [⟨[1, 2], none⟩, ⟨[3, 4], some (.other 9)⟩]) ∧
        st.reads = (upToFirstErr [⟨[1, 2], none⟩, ⟨[3, 4], some (.other 9)⟩]).length) ∧
      (∀ w ∈ st.writes, ¬ FullWrite w →
        st.writes.getLast? = some w ∧ err = some (w.ew.getD .ErrShortWrite)) ∧
      c = wrap64 (accepted st.writes) ∧
      (accepted st.writes < 2 ^ 63 → c = accepted st.writes) :=
  copyWithProgress_error_propagation
    (fun k d => if k = 0 then ((d.length : Int), none) else (1, some (.other 7)))
    [⟨[1, 2], none⟩, ⟨[3, 4], some (.other 9)⟩] 4 "Sending" tickClock (.other 9)
    (by decide) (by decide)

/-- Claim C7 as stated fails: the second write answers `(MaxInt64, err)` after a
first write of one byte; the copy returns `err` with the count
`-9223372036854775808`, while the destination reported `9223372036854775808`
bytes as accepted. -/
theorem write_error_count_wraps :
    copyWithProgress
        (fun k d => if k = 0 then ((d.length : Int), none)
          else (9223372036854775807, some (.other 7)))
        [⟨[1], none⟩, ⟨[2], some .EOF⟩] 2 "Sending" tickClock =
      .ret (-9223372036854775808) (some (.other 7))
        { written := -9223372036854775808, lastUpdate := 0, ticks := 2, reads := 2,
          writes := [⟨[1], 1, none⟩, ⟨[2], 9223372036854775807, some (.other 7)⟩], out := [] } ∧
    accepted [⟨[1], 1, none⟩, ⟨[2], 9223372036854775807, some (.other 7)⟩] =
      9223372036854775808 := by
  constructor
  · decide
  · decide

/-- Claim C8: `calculateSpeed` returns 0 for a zero duration, for every byte
count, without dividing; `Seconds()` is zero exactly for the zero duration; a
division that is performed has a non-zero divisor and a non-zero duration; for
a non-zero duration the result is the float64 quotient converted to int64: for
1 byte in 1 ns that is 999999999, for `2^53 + 1` bytes in 1 s it is `2^53`. -/
theorem calculateSpeed_zero_duration (convOut : ℚ → Int) (bytes d : Int) :
    calculateSpeed convOut bytes 0 = ⟨0, none⟩ ∧
    (seconds d = 0 ↔ d = 0) ∧
    (∀ a b, (calculateSpeed convOut bytes d).division = some (a, b) → b ≠ 0 ∧ d ≠ 0) ∧
    (d ≠ 0 → calculateSpeed convOut bytes d =
      ⟨toInt64 convOut (roundF64 (roundF64 (bytes : ℚ) / seconds d)),
        some (roundF64 (bytes : ℚ), seconds d)⟩) ∧
    (calculateSpeed convOut 1 1).result = 999999999 ∧
    calculateSpeed convOut 9007199254740993 1000000000 =
      ⟨9007199254740992, some (9007199254740992, 1)⟩ := by
  refine ⟨by simp [calculateSpeed, seconds_zero], seconds_eq_zero_iff d, ?_, ?_,
    calculateSpeed_one_nanosecond convOut, calculateSpeed_tie convOut⟩
  · intro a b h
    by_cases hs : seconds d = 0
    · simp [calculateSpeed, hs] at h
    · simp only [calculateSpeed, if_neg hs, Option.some.injEq, Prod.mk.injEq] at h
      refine ⟨by rw [← h.2]; exact hs, ?_⟩
      intro hd
      exact hs ((seconds_eq_zero_iff d).2 hd)
  · intro hd
    have hs : seconds d ≠ 0 := fun h => hd ((seconds_eq_zero_iff d).1 h)
    simp [calculateSpeed, hs]

/-- Claim C9, amended: in a run of `copyWithProgress` that is still going after
the reads `pre`, when the next read delivers a chunk that is written in full, a
progress line is printed, and `lastUpdate` set to the next clock reading,
exactly when MORE than 100 ms lie between `lastUpdate` and the clock reading
taken after the write. `lastUpdate` is the start time while nothing has been
printed, and it has not changed since any earlier point of the run after which
nothing was printed. The line is a percentage line with `written/total*100` and
both sizes when `total > 0`, and the running byte count otherwise, as in
`copyWithProgressUnknownSize`, which passes `total = 0`. -/
theorem progress_line_after_full_chunk (dst : Writer) (clock : Nat → Int) (total : Int)
    (operation : String) (pre : List ReadRes) (r : ReadRes) (st : CopyState)
    (hrun : copyWithProgress dst pre total operation clock = .pending st)
    (hpos : 0 < r.data.length) (hle : r.data.length ≤ bufSize)
    (hw : dst st.writes.length r.data = ((r.data.length : Int), none)) :
    (copyWithProgress dst (pre ++ [r]) total operation clock).state.out =
      st.out ++
        (if clock st.ticks - st.lastUpdate > 100 * millisecond then
          [progressLine total operation (wrap64 (st.written + (r.data.length : Int)))]
        else []) ++
        (if r.er = some .EOF then [.newline] else []) ∧
    (copyWithProgress dst (pre ++ [r]) total operation clock).state.lastUpdate =
      (if clock st.ticks - st.lastUpdate > 100 * millisecond then clock (st.ticks + 1)
        else st.lastUpdate) ∧
    (st.out = [] → st.lastUpdate = clock 0) ∧
    (∀ pre0 mid st0, pre = pre0 ++ mid →
      copyWithProgress dst pre0 total operation clock = .pending st0 →
      st.out = st0.out → st.lastUpdate = st0.lastUpdate) ∧
    (0 < total → ∀ written, progressLine total operation written =
      .percentLine operation ((written : ℚ) / (total : ℚ) * 100)
        (formatBytes written) (formatBytes total)) ∧
    (total ≤ 0 → ∀ written, progressLine total operation written =
      .countLine operation (formatBytes written)) ∧
    copyWithProgressUnknownSize dst (pre ++ [r]) operation clock =
      copyWithProgress dst (pre ++ [r]) 0 operation clock := by
  have hnb : ¬ r.data.length > bufSize := by omega
  have hp : (r.data.length : Int) > 0 := by omega
  have hrun' := hrun
  unfold copyWithProgress at hrun'
  have hstep : copyWithProgress dst (pre ++ [r]) total operation clock =
      copyLoop dst clock total operation [r] st := by
    unfold copyWithProgress
    exact copyLoop_append_pending dst clock total operation [r] pre _ st hrun'
  have hback : ∀ pre0 mid st0, pre = pre0 ++ mid →
      copyWithProgress dst pre0 total operation clock = .pending st0 →
      st.out = st0.out → st.lastUpdate = st0.lastUpdate := by
    intro pre0 mid st0 hpre h0 hout
    unfold copyWithProgress at h0
    rw [hpre, copyLoop_append_pending dst clock total operation mid pre0 _ st0 h0] at hrun'
    exact (copyLoop_pending_out dst clock total operation mid st0 st hrun').2 (by rw [hout])
  refine ⟨?_, ?_, ?_, hback, ?_, ?_, rfl⟩
  · rw [hstep]
    by_cases hel : clock st.ticks - st.lastUpdate > 100 * millisecond
    · have hel' := (durationSub_gt_iff _ _).2 hel
      rcases her : r.er with _ | e
      · simp [copyLoop, copyIter, writeChunk, hpos, hnb, hw, hp, her, progressUpdate, hel, hel',
          LoopResult.state]
      · by_cases hE : e = .EOF
        · simp [copyLoop, copyIter, writeChunk, hpos, hnb, hw, hp, her, progressUpdate, hel, hel',
            LoopResult.state, hE]
        · simp [copyLoop, copyIter, writeChunk, hpos, hnb, hw, hp, her, progressUpdate, hel, hel',
            LoopResult.state, hE]
    · have hel' : ¬ durationSub (clock st.ticks) st.lastUpdate > 100 * millisecond :=
        fun hc => hel ((durationSub_gt_iff _ _).1 hc)
      rcases her : r.er with _ | e
      · simp [copyLoop, copyIter, writeChunk, hpos, hnb, hw, hp, her, progressUpdate, hel, hel',
          LoopResult.state]
      · by_cases hE : e = .EOF
        · simp [copyLoop, copyIter, writeChunk, hpos, hnb, hw, hp, her, progressUpdate, hel, hel',
            LoopResult.state, hE]
        · simp [copyLoop, copyIter, writeChunk, hpos, hnb, hw, hp, her, progressUpdate, hel, hel',
            LoopResult.state, hE]
  · rw [hstep]
    by_cases hel : clock st.ticks - st.lastUpdate > 100 * millisecond
    · have hel' := (durationSub_gt_iff _ _).2 hel
      rcases her : r.er with _ | e
      · simp [copyLoop, copyIter, writeChunk, hpos, hnb, hw, hp, her, progressUpdate, hel, hel',
          LoopResult.state]
      · by_cases hE : e = .EOF
        · simp [copyLoop, copyIter, writeChunk, hpos, hnb, hw, hp, her, progressUpdate, hel, hel',
            LoopResult.state, hE]
        · simp [copyLoop, copyIter, writeChunk, hpos, hnb, hw, hp, her, progressUpdate, hel, hel',
            LoopResult.state, hE]
    · have hel' : ¬ durationSub (clock st.ticks) st.lastUpdate > 100 * millisecond :=
        fun hc => hel ((durationSub_gt_iff _ _).1 hc)
      rcases her : r.er with _ | e
      · simp [copyLoop, copyIter, writeChunk, hpos, hnb, hw, hp, her, progressUpdate, hel, hel',
          LoopResult.state]
      · by_cases hE : e = .EOF
        · simp [copyLoop, copyIter, writeChunk, hpos, hnb, hw, hp, her, progressUpdate, hel, hel',
            LoopResult.state, hE]
        · simp [copyLoop, copyIter, writeChunk, hpos, hnb, hw, hp, her, progressUpdate, hel, hel',
            LoopResult.state, hE]
  · intro hout
    exact hback [] pre _ (by simp) rfl hout
  · intro h written; simp [progressLine, h]
  · intro h written
    have : ¬ total > 0 := by omega
    simp [progressLine, this]

theorem progress_line_after_full_chunk_witness :
    (copyWithProgress acceptAll ([⟨[1, 2], none⟩] ++ [⟨[3], some .EOF⟩]) 10 "Sending"
        slowClock).state.out =
      [] ++
        (if slowClock 2 - 0 > 100 * millisecond then
          [progressLine 10 "Sending" (wrap64 (2 + (([3] : List Byte).length : Int)))]
        else []) ++
        (if (some GoError.EOF) = some .EOF then [.newline] else []) ∧
    (copyWithProgress acceptAll ([⟨[1, 2], none⟩] ++ [⟨[3], some .EOF⟩]) 10 "Sending"
        slowClock).state.lastUpdate =
      (if slowClock 2 - 0 > 100 * millisecond then slowClock (2 + 1) else 0) ∧
    (([] : List Output) = [] → (0 : Int) = slowClock 0) ∧
    (∀ pre0 mid st0, [(⟨[1, 2], none⟩ : ReadRes)] = pre0 ++ mid →
      copyWithProgress acceptAll pre0 10 "Sending" slowClock = .pending st0 →
      [] = st0.out → 0 = st0.lastUpdate) ∧
    ((0 : Int) < 10 → ∀ written, progressLine 10 "Sending" written =
      .percentLine "Sending" ((written : ℚ) / ((10 : Int) : ℚ) * 100)
        (formatBytes written) (formatBytes 10)) ∧
    ((10 : Int) ≤ 0 → ∀ written, progressLine 10 "Sending" written =
      .countLine "Sending" (formatBytes written)) ∧
    copyWithProgressUnknownSize acceptAll ([⟨[1, 2], none⟩] ++ [⟨[3], some .EOF⟩]) "Sending"
        slowClock =
      copyWithProgress acceptAll ([⟨[1, 2], none⟩] ++ [⟨[3], some .EOF⟩]) 0 "Sending" slowClock :=
  progress_line_after_full_chunk acceptAll slowClock 10 "Sending" [⟨[1, 2], none⟩]
    ⟨[3], some .EOF⟩
    { written := 2, lastUpdate := 0, ticks := 2, reads := 1, writes := [⟨[1, 2], 2, none⟩],
      out := [] }
    (by decide) (by decide) (by decide) (by decide)

/-- Claim C9 as stated fails: a chunk is read and written in full exactly 100 ms
after the start of the copy, and no progress line is printed. -/
theorem progress_at_exactly_100ms_not_printed :
    (fun k : Nat => (k : Int) * 100000000) 1 - (fun k : Nat => (k : Int) * 100000000) 0
        ≥ 100 * millisecond ∧
    copyWithProgress (fun _ d => ((d.length : Int), none)) [⟨[7], some .EOF⟩] 1 "Sending"
        (fun k => (k : Int) * 100000000) =
      .ret 1 none
        { written := 1, lastUpdate := 0, ticks := 2, reads := 1,
          writes := [⟨[7], 1, none⟩], out := [.newline] } := by
  constructor
  · decide
  · decide

/-- Claim C10: for every int64 byte count, `formatBytes` returns the decimal
value followed by `" B"` when `bytes < 1024` (negative values included); when
`bytes >= 1024` the loop ends with `exp` in `0..5`, so that `"KMGTPE"[exp]` is
in range, and with `div = 1024^(exp+1)` computed without int64 overflow and
`div <= bytes < 1024*div`. -/
theorem formatBytes_unit_in_range (bytes : Int) (hb : InInt64 bytes) :
    (bytes < 1024 → formatBytes bytes = .plain (toString bytes ++ " B")) ∧
    (1024 ≤ bytes → ∃ exp : Nat, ∃ c : Char, exp ≤ 5 ∧
      formatBytes bytes = .scaled bytes (1024 ^ (exp + 1)) exp (some c) ∧
      "KMGTPE".toList[exp]? = some c ∧
      InInt64 ((1024 : Int) ^ (exp + 1)) ∧
      (1024 : Int) ^ (exp + 1) ≤ bytes ∧ bytes < 1024 * 1024 ^ (exp + 1)) := by
  constructor
  · intro h
    unfold formatBytes
    rw [if_pos (by unfold unit; exact h)]
  · intro h
    obtain ⟨e, he, he5, hle, hlt⟩ := formatBytesLoop_spec (bytes / 1024).toNat bytes (bytes / 1024) 0
      le_rfl hb.2 (by omega) (by omega) (by omega)
    have hc : ∃ c, "KMGTPE".toList[e]? = some c := by
      interval_cases e <;> exact ⟨_, rfl⟩
    obtain ⟨c, hc⟩ := hc
    refine ⟨e, c, he5, ?_, hc, ⟨?_, ?_⟩, hle, hlt⟩
    · unfold formatBytes
      rw [if_neg (by unfold unit; omega)]
      simp only [show unit = (1024:Int) from rfl]
      rw [Int.tdiv_eq_ediv (by omega) (by norm_num)]
      have he' : formatBytesLoop (bytes / 1024) 1024 0 = (1024 ^ (e + 1), e) := by
        simpa using he
      rw [he', hc]
    · have : (0:Int) < 1024^(e+1) := by positivity
      omega
    · have := hb.2; omega

theorem formatBytes_unit_in_range_witness :
    InInt64 1536 ∧ ∃ exp : Nat, ∃ c : Char, exp ≤ 5 ∧
      formatBytes 1536 = .scaled 1536 (1024 ^ (exp + 1)) exp (some c) ∧
      "KMGTPE".toList[exp]? = some c ∧
      InInt64 ((1024 : Int) ^ (exp + 1)) ∧
      (1024 : Int) ^ (exp + 1) ≤ 1536 ∧ (1536 : Int) < 1024 * 1024 ^ (exp + 1) :=
  ⟨by unfold InInt64; norm_num,
    (formatBytes_unit_in_range 1536 (by unfold InInt64; norm_num)).2 (by norm_num)⟩

end Gwencat
